import Mathlib

/-!
Verification development for the grid dungeon crawler.

The world model (`dungeon.py`) is embedded shallowly: the `Dungeon` class
becomes a record, its methods become pure state transformers, Python ints
become `Int`, Python lists become `List`.  `list.remove(x)` removes the
first element equal to `x`, which is exactly `List.erase`.  The view's
vanishing-point margin formula (`view_pygame.py`, `_mx`) is embedded over
`ℚ` (exact arithmetic standing in for Python floats).  The maze generator
(`generate_maze` in `dungeon.py`) is embedded with the `random.Random`
instance abstracted to a deterministic state machine `PyRandom`, whose
Python behaviour is captured by `LawfulPyRandom`.
-/

/-- A tile: 0 = floor, 1 = wall. -/
abbrev Tile := Nat

/-- Player state (`PlayerState` in `dungeon.py`). -/
structure PlayerState where
  x : Int
  y : Int
  facing : Int
  hp : Int := 10
  gold : Int := 0
  base_atk : Int := 1
  weapon : Option String := none
  weapon_atk : Int := 0
deriving DecidableEq

/-- Python `v or 0` on an integer (`0` is falsy, everything else truthy). -/
def orZeroInt (v : Int) : Int := if v = 0 then 0 else v

/-- `PlayerState.atk`: `base_atk + (weapon_atk or 0)`. -/
def PlayerState.atk (p : PlayerState) : Int := p.base_atk + orZeroInt p.weapon_atk

/-- An item (`Item` dataclass): `kind` is `"gold"` or `"weapon"`. -/
structure Item where
  x : Int
  y : Int
  kind : String
  amount : Int := 0
  name : Option String := none
  atk : Int := 0
deriving DecidableEq

/-- A monster (`Monster` dataclass). -/
structure Monster where
  x : Int
  y : Int
  name : String
  hp : Int
  atk : Int
deriving DecidableEq

instance : Inhabited Monster := ⟨⟨0, 0, "", 0, 0⟩⟩

/-- The mutable state of the `Dungeon` class. -/
structure Dungeon where
  grid : List (List Tile)
  player : PlayerState
  visited : List (List Bool)
  items : List Item
  monsters : List Monster
  messages : List String
deriving DecidableEq

/-- `Dungeon.is_wall` on a bare grid: out of bounds counts as wall,
otherwise the cell is compared with 1.  The row length bound uses row 0,
as `len(self.grid[0])` does. -/
def grid_is_wall (grid : List (List Tile)) (x y : Int) : Bool :=
  if y < 0 ∨ (grid.length : Int) ≤ y ∨ x < 0 ∨ (grid.headI.length : Int) ≤ x then true
  else ((grid.getD y.toNat []).getD x.toNat 0) == 1

/-- `Dungeon.is_wall`. -/
def Dungeon.is_wall (d : Dungeon) (x y : Int) : Bool := grid_is_wall d.grid x y

/-- `grid[y][x] = v` as a functional update. -/
def set2d {α : Type} (g : List (List α)) (y x : Nat) (v : α) : List (List α) :=
  g.set y ((g.getD y []).set x v)

/-- `Dungeon._mark_visited` acting on the visited grid: mark `(x,y)` if it
is inside the visited grid's bounds and is a walkable tile. -/
def markVisitedGrid (grid : List (List Tile)) (visited : List (List Bool))
    (x y : Int) : List (List Bool) :=
  if 0 ≤ y ∧ y < (visited.length : Int) ∧ 0 ≤ x ∧ x < (visited.headI.length : Int) then
    if grid_is_wall grid x y then visited
    else set2d visited y.toNat x.toNat true
  else visited

/-- `Dungeon._mark_visited`. -/
def Dungeon.mark_visited (d : Dungeon) (x y : Int) : Dungeon :=
  { d with visited := markVisitedGrid d.grid d.visited x y }

/-- `Dungeon._dir_vec`: unit vector for the current facing
(0 = N, 1 = E, 2 = S, anything else = W). -/
def Dungeon.dir_vec (d : Dungeon) : Int × Int :=
  if d.player.facing = 0 then (0, -1)
  else if d.player.facing = 1 then (1, 0)
  else if d.player.facing = 2 then (0, 1)
  else (-1, 0)

/-- `Dungeon.transform_local`: camera-space `(forward, right)` offsets to
world coordinates. -/
def Dungeon.transform_local (d : Dungeon) (forward right : Int) : Int × Int :=
  if d.player.facing = 0 then (d.player.x + right, d.player.y - forward)
  else if d.player.facing = 1 then (d.player.x + forward, d.player.y + right)
  else if d.player.facing = 2 then (d.player.x - right, d.player.y + forward)
  else (d.player.x - forward, d.player.y - right)

/-- `Dungeon._monster_at`: first monster in list order at `(x,y)`. -/
def Dungeon.monster_at (d : Dungeon) (x y : Int) : Option Monster :=
  d.monsters.find? fun m => m.x == x && m.y == y

/-- `Dungeon._item_at`: first item in list order at `(x,y)`. -/
def Dungeon.item_at (d : Dungeon) (x y : Int) : Option Item :=
  d.items.find? fun it => it.x == x && it.y == y

/-- Python `o or dflt` for an optional string (`None` and `""` are falsy). -/
def str_or (o : Option String) (dflt : String) : String :=
  match o with
  | some s => if s = "" then dflt else s
  | none => dflt

/-- `Dungeon._on_enter`: pick up the item at `(x,y)`, if any. -/
def Dungeon.on_enter (d : Dungeon) (x y : Int) : Dungeon :=
  match d.item_at x y with
  | none => d
  | some it =>
    if it.kind = "gold" then
      { d with
        player := { d.player with gold := d.player.gold + max 0 it.amount },
        messages := d.messages ++ ["Picked up " ++ toString it.amount ++ " gold."],
        items := d.items.erase it }
    else if it.kind = "weapon" then
      let new_atk := max 0 it.atk
      if d.player.weapon = none ∨ new_atk > orZeroInt d.player.weapon_atk then
        let wname := str_or it.name "Weapon"
        { d with
          player := { d.player with weapon := some wname, weapon_atk := new_atk },
          messages := d.messages ++
            ["Equipped " ++ wname ++ " (+" ++ toString new_atk ++ " atk)."],
          items := d.items.erase it }
      else
        { d with
          messages := d.messages ++
            ["Found " ++ str_or it.name "weapon" ++ " (+" ++ toString new_atk ++
              "), but kept current."],
          items := d.items.erase it }
    else d

/-- `Dungeon._try_combat`: if a monster sits at `(nx,ny)`, resolve one
combat round and return `true`; otherwise return `false`.  The in-place
`m.hp -=` mutation is `List.set` at the found index; `monsters.remove(m)`
is `List.erase` of the updated record. -/
def Dungeon.try_combat (d : Dungeon) (nx ny : Int) : Bool × Dungeon :=
  match d.monsters.findIdx? (fun m => m.x == nx && m.y == ny) with
  | none => (false, d)
  | some i =>
    let m := d.monsters.getD i default
    let m' := { m with hp := m.hp - max 0 d.player.atk }
    let ms := d.monsters.set i m'
    if m'.hp ≤ 0 then
      let d1 : Dungeon :=
        { d with
          monsters := ms.erase m',
          player := { d.player with x := nx, y := ny },
          messages := d.messages ++ ["You defeated the " ++ m.name ++ "!"] }
      (true, (d1.mark_visited nx ny).on_enter nx ny)
    else
      let p' : PlayerState := { d.player with hp := d.player.hp - max 0 m.atk }
      let msgs1 := d.messages ++
        ["You hit the " ++ m.name ++ " (" ++ toString m'.hp ++
          " hp left). It hits you (-" ++ toString m.atk ++ " hp)."]
      let msgs2 := if p'.hp ≤ 0 then msgs1 ++ ["You have fallen..."] else msgs1
      (true, { d with monsters := ms, player := p', messages := msgs2 })

/-- `Dungeon.step_forward`. -/
def Dungeon.step_forward (d : Dungeon) : Dungeon :=
  let v := d.dir_vec
  let nx := d.player.x + v.1
  let ny := d.player.y + v.2
  let c := d.try_combat nx ny
  if c.1 then c.2
  else if d.is_wall nx ny then d
  else
    let d1 : Dungeon := { d with player := { d.player with x := nx, y := ny } }
    (d1.mark_visited nx ny).on_enter nx ny

/-- `Dungeon.step_back`: same as `step_forward` with the negated vector. -/
def Dungeon.step_back (d : Dungeon) : Dungeon :=
  let v := d.dir_vec
  let nx := d.player.x - v.1
  let ny := d.player.y - v.2
  let c := d.try_combat nx ny
  if c.1 then c.2
  else if d.is_wall nx ny then d
  else
    let d1 : Dungeon := { d with player := { d.player with x := nx, y := ny } }
    (d1.mark_visited nx ny).on_enter nx ny

/-- The `visited` field of a save dict: `missing` covers an absent field
and any value that fails `isinstance(visited, list) and
isinstance(visited[0], list)`; a present list of boolean rows is `val`. -/
inductive VisitedField where
  | missing
  | val (rows : List (List Bool))
deriving DecidableEq

/-- A save dict as consumed by `Dungeon.load_dict`; `none` in an `Option`
field means the key is absent (so the current value is kept). -/
structure SaveData where
  grid : Option (List (List Tile)) := none
  player_x : Option Int := none
  player_y : Option Int := none
  player_facing : Option Int := none
  player_hp : Option Int := none
  player_gold : Option Int := none
  player_base_atk : Option Int := none
  player_weapon : Option (Option String) := none
  player_weapon_atk : Option Int := none
  visited : VisitedField := .missing
  items : Option (List Item) := none
  monsters : Option (List Monster) := none

/-- The freshly rebuilt all-false visited grid, sized from the grid. -/
def rebuild_visited (g : List (List Tile)) : List (List Bool) :=
  List.replicate g.length (List.replicate g.headI.length false)

/-- `Dungeon.load_dict`. -/
def Dungeon.load_dict (d : Dungeon) (data : SaveData) : Dungeon :=
  let grid' := data.grid.getD d.grid
  let player' : PlayerState :=
    { x := data.player_x.getD d.player.x
      y := data.player_y.getD d.player.y
      facing := data.player_facing.getD d.player.facing
      hp := data.player_hp.getD d.player.hp
      gold := data.player_gold.getD d.player.gold
      base_atk := data.player_base_atk.getD d.player.base_atk
      weapon := data.player_weapon.getD d.player.weapon
      weapon_atk := data.player_weapon_atk.getD d.player.weapon_atk }
  let visited' :=
    match data.visited with
    | .val rows =>
      if rows ≠ [] then
        if rows.length = grid'.length ∧ ∀ row ∈ rows, row.length = grid'.headI.length
        then rows
        else rebuild_visited grid'
      else rebuild_visited grid'
    | .missing => rebuild_visited grid'
  let d1 : Dungeon :=
    { grid := grid'
      player := player'
      visited := markVisitedGrid grid' visited' player'.x player'.y
      items := data.items.getD []
      monsters := data.monsters.getD []
      messages := d.messages }
  d1

/-- The forward candidate cell of `step_forward`. -/
def Dungeon.fwd_cell (d : Dungeon) : Int × Int :=
  (d.player.x + d.dir_vec.1, d.player.y + d.dir_vec.2)

/-- The backward candidate cell of `step_back`. -/
def Dungeon.back_cell (d : Dungeon) : Int × Int :=
  (d.player.x - d.dir_vec.1, d.player.y - d.dir_vec.2)

/-- Python `int()` applied to a real number: truncation toward zero. -/
def pytrunc (q : ℚ) : Int := if q < 0 then ⌈q⌉ else ⌊q⌋

/-- `PygameView._mx` (`view_pygame.py`): horizontal margin for depth `d`.
In vanishing-point mode the margin is `int(half * d / (d + k))` with
`half = W // 2 - 1` and `k = max(0.01, vp_depth_x)`; otherwise the anchor
list is sampled with the index clamped into range.  Floats are modelled by
exact rationals. -/
def viewMx (use_vanishing : Bool) (width : Int) (vp_depth_x : ℚ)
    (margins_x : List Int) (d : Int) : Int :=
  if use_vanishing then
    let half : Int := width.fdiv 2 - 1
    let k : ℚ := max (1 / 100) vp_depth_x
    let t : ℚ := (d : ℚ) / ((d : ℚ) + k)
    pytrunc ((half : ℚ) * t)
  else
    match margins_x with
    | [] => 0
    | _ => margins_x.getD (min (max 0 d) ((margins_x.length : Int) - 1)).toNat 0

/-- The four two-step carving directions of `generate_maze` (N, S, W, E),
in source order. -/
def dirs0 : List (Int × Int) := [(0, -2), (0, 2), (-2, 0), (2, 0)]

/-- A deterministic random generator: the shape of the `random.Random`
methods used by `generate_maze`.  `init seed` is `random.Random(seed)`,
`randrange st lo hi step` is `randrange(lo, hi, step)`, `shuffle st l` is
the in-place `shuffle(l)` (returning the permuted list). -/
structure PyRandom (σ : Type) where
  init : Option Int → σ
  randrange : σ → Int → Int → Int → Int × σ
  shuffle : σ → List (Int × Int) → List (Int × Int) × σ

/-- The facts about `random.Random` that `generate_maze` relies on:
`randrange(lo, hi, 2)` returns a value in `[lo, hi)` with `lo`'s parity,
and `shuffle` returns a permutation of its input. -/
structure LawfulPyRandom {σ : Type} (R : PyRandom σ) : Prop where
  randrange_mem : ∀ (st : σ) (lo hi : Int), lo < hi →
    lo ≤ (R.randrange st lo hi 2).1 ∧ (R.randrange st lo hi 2).1 < hi ∧
      (R.randrange st lo hi 2).1 % 2 = lo % 2
  shuffle_perm : ∀ (st : σ) (l : List (Int × Int)), ((R.shuffle st l).1).Perm l

/-- A maze grid as a total function on coordinates (the `w × h` list of
lists of `generate_maze`, with walls outside the allocated rectangle);
tile values as in `Tile`: 0 = floor, 1 = wall. -/
abbrev MazeGrid := Int × Int → Nat

/-- `grid[y][x] = 0`. -/
def carve (g : MazeGrid) (x y : Int) : MazeGrid :=
  fun p => if p = (x, y) then 0 else g p

/-- The inner `for dx, dy in dirs` loop body of `generate_maze`: find the
first direction whose target is strictly inside the border and still a
wall; return the target and the between cell. -/
def findCarve (g : MazeGrid) (w h x y : Int) :
    List (Int × Int) → Option ((Int × Int) × (Int × Int))
  | [] => none
  | (dx, dy) :: rest =>
    let nx := x + dx
    let ny := y + dy
    let bx := x + dx.fdiv 2
    let b_y := y + dy.fdiv 2
    if 1 ≤ nx ∧ nx < w - 1 ∧ 1 ≤ ny ∧ ny < h - 1 ∧ g (nx, ny) = 1 then
      some ((nx, ny), (bx, b_y))
    else
      findCarve g w h x y rest

/-- Number of wall cells strictly inside the border; the termination
measure of the DFS loop only ever decreases. -/
def wallCount (w h : Int) (g : MazeGrid) : Nat :=
  (((Finset.Icc 1 (w - 2)) ×ˢ (Finset.Icc 1 (h - 2))).filter fun p => g p = 1).card

/-- The `while stack:` loop of `generate_maze`.  The stack top is the list
head; carving pushes, a fully explored cell pops.  `dirs` is threaded
through because the Python list is shuffled in place. -/
def mazeLoop {σ : Type} (R : PyRandom σ) (w h : Int) (g : MazeGrid)
    (stack : List (Int × Int)) (dirs : List (Int × Int)) (rs : σ) : MazeGrid :=
  match stack with
  | [] => g
  | (x, y) :: rest =>
    match hfc : findCarve g w h x y (R.shuffle rs dirs).1 with
    | some cells =>
      mazeLoop R w h (carve (carve g cells.2.1 cells.2.2) cells.1.1 cells.1.2)
        (cells.1 :: (x, y) :: rest) (R.shuffle rs dirs).1 (R.shuffle rs dirs).2
    | none => mazeLoop R w h g rest (R.shuffle rs dirs).1 (R.shuffle rs dirs).2
termination_by 2 * wallCount w h g + stack.length
decreasing_by
  · have key : ∀ (x y : Int) (l : List (Int × Int)) (cs : (Int × Int) × (Int × Int)),
        findCarve g w h x y l = some cs →
        1 ≤ cs.1.1 ∧ cs.1.1 ≤ w - 2 ∧ 1 ≤ cs.1.2 ∧ cs.1.2 ≤ h - 2 ∧
          g (cs.1.1, cs.1.2) = 1 := by
      intro x y l
      induction l with
      | nil => intro cs hcs; simp [findCarve] at hcs
      | cons dd rest ih =>
        intro cs hcs
        obtain ⟨dx, dy⟩ := dd
        simp only [findCarve] at hcs
        split at hcs
        · rename_i hcond
          cases hcs
          dsimp only
          exact ⟨hcond.1, by omega, hcond.2.2.1, by omega, hcond.2.2.2.2⟩
        · exact ih cs hcs
    have hk := key _ _ _ _ hfc
    have hsub : (((Finset.Icc 1 (w - 2)) ×ˢ (Finset.Icc 1 (h - 2))).filter
        fun p => carve (carve g cells.2.1 cells.2.2) cells.1.1 cells.1.2 p = 1) ⊂
        (((Finset.Icc 1 (w - 2)) ×ˢ (Finset.Icc 1 (h - 2))).filter fun p => g p = 1) := by
      rw [Finset.ssubset_iff_of_subset]
      · refine ⟨(cells.1.1, cells.1.2), ?_, ?_⟩
        · simp only [Finset.mem_filter, Finset.mem_product, Finset.mem_Icc]
          exact ⟨⟨⟨hk.1, hk.2.1⟩, hk.2.2.1, hk.2.2.2.1⟩, hk.2.2.2.2⟩
        · simp only [Finset.mem_filter, carve]
          rintro ⟨-, hbad⟩
          simp at hbad
      · intro p hp
        simp only [Finset.mem_filter, carve] at hp ⊢
        refine ⟨hp.1, ?_⟩
        have := hp.2
        split at this
        · exact absurd this Nat.zero_ne_one
        · split at this
          · exact absurd this Nat.zero_ne_one
          · exact this
    have hcard := Finset.card_lt_card hsub
    simp only [wallCount, List.length_cons]
    omega
  · simp only [List.length_cons]
    omega

/-- The normalized odd width `max(5, width - (width + 1) % 2)`. -/
def mazeW (width : Int) : Int := max 5 (width - (width + 1) % 2)

/-- The final pass of `generate_maze`: force the outer ring to wall. -/
def borderWall (w h : Int) (g : MazeGrid) : MazeGrid :=
  fun p => if p.1 = 0 ∨ p.1 = w - 1 ∨ p.2 = 0 ∨ p.2 = h - 1 then 1 else g p

/-- `generate_maze(width, height, seed=seed)` over an abstract generator. -/
def generateMaze {σ : Type} (R : PyRandom σ) (width height : Int)
    (seed : Option Int) : MazeGrid :=
  let w := mazeW width
  let h := mazeW height
  let rs0 := R.init seed
  let r1 := R.randrange rs0 1 w 2
  let r2 := R.randrange r1.2 1 h 2
  let g0 : MazeGrid := fun _ => 1
  let g1 := carve g0 r1.1 r2.1
  let g2 := mazeLoop R w h g1 [(r1.1, r2.1)] dirs0 r2.2
  let g3 := carve g2 1 1
  borderWall w h g3

/-- Two cells are edge-adjacent (share a side). -/
def cellAdj (a b : Int × Int) : Prop :=
  (a.1 - b.1).natAbs + (a.2 - b.2).natAbs = 1

/-- The graph on grid coordinates whose edges join edge-adjacent floor
cells of `g`. -/
def mazeGraph (g : MazeGrid) : SimpleGraph (Int × Int) where
  Adj a b := g a = 0 ∧ g b = 0 ∧ cellAdj a b
  symm := by
    intro a b h
    refine ⟨h.2.1, h.1, ?_⟩
    have := h.2.2
    unfold cellAdj at this ⊢
    omega
  loopless := by
    intro a h
    have := h.2.2
    unfold cellAdj at this
    omega

/-- `(x, y)` lies inside the `w × h` rectangle. -/
def inBounds (w h : Int) (p : Int × Int) : Prop :=
  0 ≤ p.1 ∧ p.1 < w ∧ 0 ≤ p.2 ∧ p.2 < h

/-- A floor cell of the generated maze. -/
def mazeFloor {σ : Type} (R : PyRandom σ) (width height : Int)
    (seed : Option Int) (p : Int × Int) : Prop :=
  inBounds (mazeW width) (mazeW height) p ∧ generateMaze R width height seed p = 0

/-- The trivial deterministic generator: `randrange` returns its lower
bound and `shuffle` is the identity. -/
def TrivR : PyRandom Unit where
  init := fun _ => ()
  randrange := fun st lo _ _ => (lo, st)
  shuffle := fun st l => (l, st)

/-- `(x, y)` is strictly inside the border ring. -/
def InnerCell (w h : Int) (p : Int × Int) : Prop :=
  1 ≤ p.1 ∧ p.1 ≤ w - 2 ∧ 1 ≤ p.2 ∧ p.2 ≤ h - 2

/-- An odd-coordinate cell strictly inside the border: the nodes of the
DFS carving lattice. -/
def OddCell (w h : Int) (p : Int × Int) : Prop :=
  InnerCell w h p ∧ p.1 % 2 = 1 ∧ p.2 % 2 = 1

/-- The loop invariant of `mazeLoop`: grid values are 0/1, floors are
inner non-even-even cells, carved between-cells connect two carved
endpoint cells, stacked cells are carved odd cells, every floor is
reachable from the start, popped odd cells have all their lattice
neighbours carved, and the floor graph is acyclic. -/
structure MazeInv (w h : Int) (s : Int × Int) (g : MazeGrid)
    (stack : List (Int × Int)) : Prop where
  vals : ∀ p, g p = 0 ∨ g p = 1
  shape : ∀ p, g p = 0 → InnerCell w h p ∧ (p.1 % 2 = 1 ∨ p.2 % 2 = 1)
  ends_x : ∀ x y : Int, g (x, y) = 0 → x % 2 = 0 → g (x - 1, y) = 0 ∧ g (x + 1, y) = 0
  ends_y : ∀ x y : Int, g (x, y) = 0 → y % 2 = 0 → g (x, y - 1) = 0 ∧ g (x, y + 1) = 0
  stack_ok : ∀ p ∈ stack, OddCell w h p ∧ g p = 0
  start_floor : g s = 0
  conn : ∀ p, g p = 0 → (mazeGraph g).Reachable s p
  sat : ∀ p, OddCell w h p → g p = 0 → p ∉ stack →
    ∀ dd ∈ dirs0, OddCell w h (p.1 + dd.1, p.2 + dd.2) →
      g (p.1 + dd.1, p.2 + dd.2) = 0
  acyc : (mazeGraph g).IsAcyclic

/-- Reachability invariant of the world: every monster stands on a
walkable tile (entity population only ever places monsters on floor
cells). -/
def monsters_on_floor (d : Dungeon) : Prop :=
  ∀ m ∈ d.monsters, d.is_wall m.x m.y = false

/-- A 1x2 world whose player stands on the wall cell: grid `[[1, 0]]`,
player at `(0,0)` facing East. -/
def corrDungeon : Dungeon :=
  { grid := [[1, 0]]
    player := { x := 0, y := 0, facing := 1 }
    visited := [[false, false]]
    items := []
    monsters := []
    messages := [] }

/-- A 1x2 all-floor world, player at `(0,0)` facing East. -/
def rtDungeon : Dungeon :=
  { grid := [[0, 0]]
    player := { x := 0, y := 0, facing := 1 }
    visited := [[false, false]]
    items := []
    monsters := []
    messages := [] }

/-- A 1x2 all-floor world with two gold items stacked on cell `(1,0)`,
the first of negative amount. -/
def goldCexDungeon : Dungeon :=
  { grid := [[0, 0]]
    player := { x := 0, y := 0, facing := 1 }
    visited := [[false, false]]
    items := [{ x := 1, y := 0, kind := "gold", amount := -5 },
              { x := 1, y := 0, kind := "gold", amount := 7 }]
    monsters := []
    messages := [] }

/-- A 1x2 all-floor world with one 10-gold pile on cell `(1,0)`. -/
def goldDungeon : Dungeon :=
  { grid := [[0, 0]]
    player := { x := 0, y := 0, facing := 1 }
    visited := [[false, false]]
    items := [{ x := 1, y := 0, kind := "gold", amount := 10 }]
    monsters := []
    messages := [] }

/-- A 1x2 all-floor world: player holds an atk-5 weapon, an atk-3 weapon
lies on cell `(1,0)`. -/
def weaponDungeon : Dungeon :=
  { grid := [[0, 0]]
    player := { x := 0, y := 0, facing := 1, weapon := some "Axe", weapon_atk := 5 }
    visited := [[false, false]]
    items := [{ x := 1, y := 0, kind := "weapon", name := some "Dagger", atk := 3 }]
    monsters := []
    messages := [] }

/-- A world reachable via `load_dict` (which reads `weapon_atk` and item
fields from the save unclamped): an "Axe" with bonus `-1` equipped, and a
weapon item of bonus `-2` on the floor cell ahead. -/
def weaponCexDungeon : Dungeon :=
  { grid := [[0, 0]]
    player := { x := 0, y := 0, facing := 1, weapon := some "Axe", weapon_atk := -1 }
    visited := [[false, false]]
    items := [{ x := 1, y := 0, kind := "weapon", name := some "Dagger", atk := -2 }]
    monsters := []
    messages := [] }

/-- The visited grid that C8's wording asks for, built from the spec's
words: the rebuilt all-false grid with the player's current cell set to
true unconditionally.  Kept separate from the code-derived
`markVisitedGrid` so the two can be compared. -/
def rebuilt_marked_spec (g : List (List Tile)) (px py : Int) : List (List Bool) :=
  set2d (rebuild_visited g) py.toNat px.toNat true

/-- A 1x1 all-wall world. -/
def loadCexDungeon : Dungeon :=
  { grid := [[1]]
    player := { x := 0, y := 0, facing := 1 }
    visited := [[false]]
    items := []
    monsters := []
    messages := [] }

/-- A save dict with a 1x1 all-wall grid, the player at `(0,0)` (a wall
cell), and no `visited` field. -/
def loadCexData : SaveData :=
  { grid := some [[1]]
    player_x := some 0
    player_y := some 0
    visited := .missing }

/-- The victory message queued when a monster dies. -/
abbrev victoryMsg (n : String) : String := "You defeated the " ++ n ++ "!"

/-- The monster at index `i` after taking one player hit of
`max(0, base_atk + weapon_atk)` damage. -/
abbrev hitMonster (d : Dungeon) (i : Nat) : Monster :=
  { d.monsters.getD i default with
    hp := (d.monsters.getD i default).hp -
      max 0 (d.player.base_atk + d.player.weapon_atk) }

/-- C3's combat contract, relating the pre-state `d`, the post-state `d'`
of a step whose candidate cell `c` holds the monster at index `i`:
either the hit kills it (monster removed, exactly one more victory
message, player moved into `c`), or the monster survives with the reduced
hp, retaliates for `max(0, atk)`, exactly one combat message is queued
(plus the defeat message exactly when the player drops to 0 or below) and
the player does not move. -/
def combat_spec (d d' : Dungeon) (c : Int × Int) (i : Nat) : Prop :=
  ((hitMonster d i).hp ≤ 0 →
    d'.player.x = c.1 ∧ d'.player.y = c.2 ∧
    d'.monsters = d.monsters.eraseIdx i ∧
    d'.messages.count (victoryMsg (d.monsters.getD i default).name) =
      d.messages.count (victoryMsg (d.monsters.getD i default).name) + 1) ∧
  (0 < (hitMonster d i).hp →
    d'.player.x = d.player.x ∧ d'.player.y = d.player.y ∧
    d'.monsters = d.monsters.set i (hitMonster d i) ∧
    d'.player.hp = d.player.hp - max 0 (d.monsters.getD i default).atk ∧
    d'.messages = d.messages ++
      ["You hit the " ++ (d.monsters.getD i default).name ++ " (" ++
        toString (hitMonster d i).hp ++ " hp left). It hits you (-" ++
        toString (d.monsters.getD i default).atk ++ " hp)."] ++
      (if d.player.hp - max 0 (d.monsters.getD i default).atk ≤ 0
       then ["You have fallen..."] else []))

/-- A 1x2 all-floor world with a 3-hp monster ahead of a 5-atk player. -/
def combatDungeon : Dungeon :=
  { grid := [[0, 0]]
    player := { x := 0, y := 0, facing := 1, base_atk := 5 }
    visited := [[false, false]]
    items := []
    monsters := [{ x := 1, y := 0, name := "Rat", hp := 3, atk := 1 }]
    messages := [] }

/-- A one-row three-cell corridor with the player in the middle, used as a
concrete evaluation state. -/
def sampleDungeon (f : Int) : Dungeon :=
  { grid := [[0, 0, 0]]
    player := { x := 1, y := 0, facing := f }
    visited := [[false, false, false]]
    items := []
    monsters := []
    messages := [] }

/-- C4: `transform_local` is the exact 90°-step integer rotation: facing
North maps `(forward,right)` to `(x+right, y-forward)`; East to
`(x+forward, y+right)`; South to `(x-right, y+forward)`; West to
`(x-forward, y-right)`. -/
theorem transform_local_rotation (d : Dungeon) (forward right : Int) :
    (d.player.facing = 0 →
      d.transform_local forward right = (d.player.x + right, d.player.y - forward)) ∧
    (d.player.facing = 1 →
      d.transform_local forward right = (d.player.x + forward, d.player.y + right)) ∧
    (d.player.facing = 2 →
      d.transform_local forward right = (d.player.x - right, d.player.y + forward)) ∧
    (d.player.facing = 3 →
      d.transform_local forward right = (d.player.x - forward, d.player.y - right)) := by
  refine ⟨?_, ?_, ?_, ?_⟩ <;> intro hf <;> simp [Dungeon.transform_local, hf]

/-- Witness for C4 at concrete states: one check per facing. -/
theorem transform_local_rotation_witness :
    (sampleDungeon 0).transform_local 1 2 = (3, -1) ∧
    (sampleDungeon 1).transform_local 1 2 = (2, 2) ∧
    (sampleDungeon 2).transform_local 1 2 = (-1, 1) ∧
    (sampleDungeon 3).transform_local 1 2 = (0, -2) :=
  ⟨(transform_local_rotation (sampleDungeon 0) 1 2).1 rfl,
   (transform_local_rotation (sampleDungeon 1) 1 2).2.1 rfl,
   (transform_local_rotation (sampleDungeon 2) 1 2).2.2.1 rfl,
   (transform_local_rotation (sampleDungeon 3) 1 2).2.2.2 rfl⟩

theorem pytrunc_eq_zero {q : ℚ} (h1 : -1 < q) (h2 : q < 1) : pytrunc q = 0 := by
  unfold pytrunc
  split
  · rw [Int.ceil_eq_zero_iff]
    rename_i hq
    exact ⟨h1, le_of_lt hq⟩
  · rw [Int.floor_eq_zero_iff]
    rename_i hq
    exact ⟨le_of_not_lt hq, h2⟩

/-- C9: in vanishing-point mode the horizontal margin is monotonically
nondecreasing in the depth index and always strictly less than half the
screen width. -/
theorem vanishing_margin_monotone_bounded (width : Int) (vp : ℚ)
    (marg : List Int) (d : Int) (hd : 0 ≤ d) (hW : 1 ≤ width) :
    viewMx true width vp marg d ≤ viewMx true width vp marg (d + 1) ∧
    2 * viewMx true width vp marg d < width := by
  have hk : (1 : ℚ) / 100 ≤ max (1 / 100) vp := le_max_left _ _
  have hkpos : 0 < max (1 / 100 : ℚ) vp := lt_of_lt_of_le (by norm_num) hk
  have hdq : (0 : ℚ) ≤ (d : ℚ) := by exact_mod_cast hd
  have hden : 0 < (d : ℚ) + max (1 / 100) vp := by linarith
  have hden' : 0 < ((d : ℚ) + 1) + max (1 / 100) vp := by linarith
  have ht0 : 0 ≤ (d : ℚ) / ((d : ℚ) + max (1 / 100) vp) :=
    div_nonneg hdq (le_of_lt hden)
  have ht1 : (d : ℚ) / ((d : ℚ) + max (1 / 100) vp) < 1 :=
    (div_lt_one hden).mpr (by linarith)
  have ht0' : 0 ≤ ((d : ℚ) + 1) / (((d : ℚ) + 1) + max (1 / 100) vp) :=
    div_nonneg (by linarith) (le_of_lt hden')
  have ht1' : ((d : ℚ) + 1) / (((d : ℚ) + 1) + max (1 / 100) vp) < 1 :=
    (div_lt_one hden').mpr (by linarith)
  have hmono : (d : ℚ) / ((d : ℚ) + max (1 / 100) vp) ≤
      ((d : ℚ) + 1) / (((d : ℚ) + 1) + max (1 / 100) vp) := by
    rw [div_le_div_iff₀ hden hden']
    nlinarith [hkpos]
  simp only [viewMx, if_true]
  rw [show ((d + 1 : Int) : ℚ) = (d : ℚ) + 1 by push_cast; ring]
  rcases (by omega : width = 1 ∨ 2 ≤ width) with h1 | h2
  · subst h1
    have hh : ((1 : Int).fdiv 2 - 1) = -1 := by decide
    rw [hh]
    have hz : pytrunc (((-1 : Int) : ℚ) * ((d : ℚ) / ((d : ℚ) + max (1 / 100) vp))) = 0 := by
      apply pytrunc_eq_zero <;> push_cast <;> nlinarith
    have hz' : pytrunc (((-1 : Int) : ℚ) *
        (((d : ℚ) + 1) / (((d : ℚ) + 1) + max (1 / 100) vp))) = 0 := by
      apply pytrunc_eq_zero <;> push_cast <;> nlinarith
    rw [hz, hz']
    omega
  · have hfd : width.fdiv 2 = width / 2 := Int.fdiv_eq_ediv width (by omega)
    have hhalf : 0 ≤ width.fdiv 2 - 1 := by
      rw [hfd]; omega
    have hhq : (0 : ℚ) ≤ ((width.fdiv 2 - 1 : Int) : ℚ) := by exact_mod_cast hhalf
    have htr : ∀ t : ℚ, 0 ≤ t →
        pytrunc (((width.fdiv 2 - 1 : Int) : ℚ) * t) =
          ⌊((width.fdiv 2 - 1 : Int) : ℚ) * t⌋ := by
      intro t ht
      unfold pytrunc
      rw [if_neg]
      push_neg
      exact mul_nonneg hhq ht
    rw [htr _ ht0, htr _ ht0']
    constructor
    · exact Int.floor_le_floor (mul_le_mul_of_nonneg_left hmono hhq)
    · have hle : ⌊((width.fdiv 2 - 1 : Int) : ℚ) *
          ((d : ℚ) / ((d : ℚ) + max (1 / 100) vp))⌋ ≤ width.fdiv 2 - 1 := by
        calc ⌊((width.fdiv 2 - 1 : Int) : ℚ) * ((d : ℚ) / ((d : ℚ) + max (1 / 100) vp))⌋
            ≤ ⌊((width.fdiv 2 - 1 : Int) : ℚ)⌋ :=
              Int.floor_le_floor (by nlinarith)
          _ = width.fdiv 2 - 1 := Int.floor_intCast _
      omega

/-- Witness for C9 at a concrete screen and depth. -/
theorem vanishing_margin_witness :
    viewMx true 640 3 [] 0 ≤ viewMx true 640 3 [] 1 ∧
    2 * viewMx true 640 3 [] 0 < 640 :=
  vanishing_margin_monotone_bounded 640 3 [] 0 (by decide) (by decide)

theorem find?_none_findIdx?_none {α : Type} (p : α → Bool) (l : List α)
    (h : l.find? p = none) : l.findIdx? p = none := by
  rw [List.findIdx?_eq_none_iff]
  rw [List.find?_eq_none] at h
  intro x hx
  cases hpx : p x
  · rfl
  · exact absurd hpx (h x hx)

theorem try_combat_no_monster (d : Dungeon) (nx ny : Int)
    (h : d.monster_at nx ny = none) : d.try_combat nx ny = (false, d) := by
  have hidx : d.monsters.findIdx? (fun m => m.x == nx && m.y == ny) = none :=
    find?_none_findIdx?_none _ _ h
  unfold Dungeon.try_combat
  rw [hidx]

theorem on_enter_frame (d : Dungeon) (x y : Int) :
    (d.on_enter x y).player.x = d.player.x ∧
    (d.on_enter x y).player.y = d.player.y ∧
    (d.on_enter x y).player.facing = d.player.facing ∧
    (d.on_enter x y).grid = d.grid ∧
    (d.on_enter x y).monsters = d.monsters := by
  rcases hit : d.item_at x y with _ | it <;>
    simp only [Dungeon.on_enter, hit]
  · simp
  · split_ifs <;> simp

theorem dir_vec_congr (d e : Dungeon) (h : d.player.facing = e.player.facing) :
    d.dir_vec = e.dir_vec := by
  unfold Dungeon.dir_vec
  rw [h]

/-- C5: stepping toward a wall cell is a silent no-op: in any state whose
monsters all stand on floor tiles, if the candidate cell of
`step_forward` (resp. `step_back`) is a wall, the whole state is
unchanged — no movement and no message. -/
theorem step_into_wall_noop (d : Dungeon) (hm : monsters_on_floor d) :
    (d.is_wall d.fwd_cell.1 d.fwd_cell.2 = true → d.step_forward = d) ∧
    (d.is_wall d.back_cell.1 d.back_cell.2 = true → d.step_back = d) := by
  constructor <;> intro hw
  · simp only [Dungeon.fwd_cell] at hw
    have hnone : d.monster_at (d.player.x + d.dir_vec.1) (d.player.y + d.dir_vec.2) = none := by
      rw [Dungeon.monster_at, List.find?_eq_none]
      intro m hmem hpm
      have hmw := hm m hmem
      simp only [Bool.and_eq_true, beq_iff_eq] at hpm
      rw [hpm.1, hpm.2] at hmw
      rw [hw] at hmw
      exact Bool.true_eq_false ▸ (by simp at hmw)
    have htc := try_combat_no_monster d _ _ hnone
    simp only [Dungeon.step_forward, htc, Bool.false_eq_true, if_false, hw, if_true]
  · simp only [Dungeon.back_cell] at hw
    have hnone : d.monster_at (d.player.x - d.dir_vec.1) (d.player.y - d.dir_vec.2) = none := by
      rw [Dungeon.monster_at, List.find?_eq_none]
      intro m hmem hpm
      have hmw := hm m hmem
      simp only [Bool.and_eq_true, beq_iff_eq] at hpm
      rw [hpm.1, hpm.2] at hmw
      rw [hw] at hmw
      exact Bool.true_eq_false ▸ (by simp at hmw)
    have htc := try_combat_no_monster d _ _ hnone
    simp only [Dungeon.step_back, htc, Bool.false_eq_true, if_false, hw, if_true]

/-- Witness for C5: in `sampleDungeon 0` both candidate cells are walls
(out of bounds) and both steps leave the state unchanged. -/
theorem step_into_wall_noop_witness :
    monsters_on_floor (sampleDungeon 0) ∧
    (sampleDungeon 0).is_wall (sampleDungeon 0).fwd_cell.1 (sampleDungeon 0).fwd_cell.2 = true ∧
    (sampleDungeon 0).step_forward = sampleDungeon 0 ∧
    (sampleDungeon 0).step_back = sampleDungeon 0 :=
  have hmf : monsters_on_floor (sampleDungeon 0) := by
    intro m hm
    exact absurd hm (List.not_mem_nil m)
  ⟨hmf, by decide,
   (step_into_wall_noop (sampleDungeon 0) hmf).1 (by decide),
   (step_into_wall_noop (sampleDungeon 0) hmf).2 (by decide)⟩

theorem transform_local_fwd (d : Dungeon) :
    d.transform_local 1 0 = (d.player.x + d.dir_vec.1, d.player.y + d.dir_vec.2) := by
  unfold Dungeon.transform_local Dungeon.dir_vec
  split_ifs <;> simp <;> ring

theorem step_forward_moves (d : Dungeon)
    (hm : d.monster_at (d.player.x + d.dir_vec.1) (d.player.y + d.dir_vec.2) = none)
    (hw : d.is_wall (d.player.x + d.dir_vec.1) (d.player.y + d.dir_vec.2) = false) :
    d.step_forward =
      ((({ d with player := { d.player with
            x := d.player.x + d.dir_vec.1,
            y := d.player.y + d.dir_vec.2 } } : Dungeon).mark_visited
          (d.player.x + d.dir_vec.1) (d.player.y + d.dir_vec.2)).on_enter
        (d.player.x + d.dir_vec.1) (d.player.y + d.dir_vec.2)) := by
  have htc := try_combat_no_monster d _ _ hm
  simp only [Dungeon.step_forward, htc, Bool.false_eq_true, if_false, hw]

theorem step_back_moves (d : Dungeon)
    (hm : d.monster_at (d.player.x - d.dir_vec.1) (d.player.y - d.dir_vec.2) = none)
    (hw : d.is_wall (d.player.x - d.dir_vec.1) (d.player.y - d.dir_vec.2) = false) :
    d.step_back =
      ((({ d with player := { d.player with
            x := d.player.x - d.dir_vec.1,
            y := d.player.y - d.dir_vec.2 } } : Dungeon).mark_visited
          (d.player.x - d.dir_vec.1) (d.player.y - d.dir_vec.2)).on_enter
        (d.player.x - d.dir_vec.1) (d.player.y - d.dir_vec.2)) := by
  have htc := try_combat_no_monster d _ _ hm
  simp only [Dungeon.step_back, htc, Bool.false_eq_true, if_false, hw]

/-- Counterexample for C10 as stated: in `corrDungeon` the cell ahead is
floor and no monster is anywhere, yet forward-then-back does not restore
the position, because the starting cell itself is a wall. -/
theorem step_roundtrip_cex :
    corrDungeon.is_wall (corrDungeon.transform_local 1 0).1
        (corrDungeon.transform_local 1 0).2 = false ∧
    corrDungeon.monster_at (corrDungeon.transform_local 1 0).1
        (corrDungeon.transform_local 1 0).2 = none ∧
    corrDungeon.monster_at corrDungeon.player.x corrDungeon.player.y = none ∧
    (corrDungeon.step_forward.step_back).player.x ≠ corrDungeon.player.x := by
  refine ⟨by decide, by decide, by decide, ?_⟩
  decide

/-- C10 (amended): if additionally the player's current cell is a floor
tile, stepping forward then back restores position and facing. -/
theorem step_roundtrip_amended (d : Dungeon)
    (hpf : d.is_wall d.player.x d.player.y = false)
    (hff : d.is_wall (d.transform_local 1 0).1 (d.transform_local 1 0).2 = false)
    (hm1 : d.monster_at (d.transform_local 1 0).1 (d.transform_local 1 0).2 = none)
    (hm2 : d.monster_at d.player.x d.player.y = none) :
    (d.step_forward.step_back).player.x = d.player.x ∧
    (d.step_forward.step_back).player.y = d.player.y ∧
    (d.step_forward.step_back).player.facing = d.player.facing := by
  rw [transform_local_fwd] at hff hm1
  dsimp only at hff hm1
  have h1 := step_forward_moves d hm1 hff
  have hex : d.step_forward.player.x = d.player.x + d.dir_vec.1 := by
    rw [h1]; exact (on_enter_frame _ _ _).1
  have hey : d.step_forward.player.y = d.player.y + d.dir_vec.2 := by
    rw [h1]; exact (on_enter_frame _ _ _).2.1
  have hef : d.step_forward.player.facing = d.player.facing := by
    rw [h1]; exact (on_enter_frame _ _ _).2.2.1
  have heg : d.step_forward.grid = d.grid := by
    rw [h1]; exact (on_enter_frame _ _ _).2.2.2.1
  have hemon : d.step_forward.monsters = d.monsters := by
    rw [h1]; exact (on_enter_frame _ _ _).2.2.2.2
  have hvec : d.step_forward.dir_vec = d.dir_vec := dir_vec_congr _ _ hef
  have hbx : d.step_forward.player.x - d.step_forward.dir_vec.1 = d.player.x := by
    rw [hex, hvec]; ring
  have hby : d.step_forward.player.y - d.step_forward.dir_vec.2 = d.player.y := by
    rw [hey, hvec]; ring
  have hm2' : d.step_forward.monster_at
      (d.step_forward.player.x - d.step_forward.dir_vec.1)
      (d.step_forward.player.y - d.step_forward.dir_vec.2) = none := by
    rw [hbx, hby]
    unfold Dungeon.monster_at at hm2 ⊢
    rw [hemon]
    exact hm2
  have hpf' : d.step_forward.is_wall
      (d.step_forward.player.x - d.step_forward.dir_vec.1)
      (d.step_forward.player.y - d.step_forward.dir_vec.2) = false := by
    rw [hbx, hby]
    unfold Dungeon.is_wall at hpf ⊢
    rw [heg]
    exact hpf
  have h2 := step_back_moves d.step_forward hm2' hpf'
  refine ⟨?_, ?_, ?_⟩
  · rw [h2]; exact ((on_enter_frame _ _ _).1).trans hbx
  · rw [h2]; exact ((on_enter_frame _ _ _).2.1).trans hby
  · rw [h2]; exact ((on_enter_frame _ _ _).2.2.1).trans hef

/-- Witness for the amended C10 in `rtDungeon`. -/
theorem step_roundtrip_amended_witness :
    (rtDungeon.step_forward.step_back).player.x = rtDungeon.player.x ∧
    (rtDungeon.step_forward.step_back).player.y = rtDungeon.player.y ∧
    (rtDungeon.step_forward.step_back).player.facing = rtDungeon.player.facing :=
  step_roundtrip_amended rtDungeon (by decide) (by decide) (by decide) (by decide)

theorem orZeroInt_eq (v : Int) : orZeroInt v = v := by
  unfold orZeroInt
  split
  · omega
  · rfl

theorem mark_visited_player (d : Dungeon) (x y : Int) :
    (d.mark_visited x y).player = d.player := rfl

theorem mark_visited_grid_eq (d : Dungeon) (x y : Int) :
    (d.mark_visited x y).grid = d.grid := rfl

theorem mark_visited_items (d : Dungeon) (x y : Int) :
    (d.mark_visited x y).items = d.items := rfl

theorem mark_visited_messages (d : Dungeon) (x y : Int) :
    (d.mark_visited x y).messages = d.messages := rfl

theorem mark_visited_monsters (d : Dungeon) (x y : Int) :
    (d.mark_visited x y).monsters = d.monsters := rfl

theorem find?_erase_of_unique {α : Type} [DecidableEq α] (l : List α)
    (p : α → Bool) (a : α) (hfind : l.find? p = some a)
    (huniq : (l.filter p).length ≤ 1) : (l.erase a).find? p = none := by
  induction l with
  | nil => simp at hfind
  | cons b t ih =>
    by_cases hpb : p b
    · rw [List.find?_cons_of_pos _ hpb] at hfind
      injection hfind with hba
      subst hba
      rw [List.erase_cons_head]
      rw [List.filter_cons_of_pos hpb] at huniq
      simp only [List.length_cons] at huniq
      have hnil : t.filter p = [] := List.length_eq_zero.mp (by omega)
      rw [List.find?_eq_none]
      intro x hx hpx
      have : x ∈ t.filter p := List.mem_filter.mpr ⟨hx, hpx⟩
      rw [hnil] at this
      exact absurd this (List.not_mem_nil x)
    · rw [List.find?_cons_of_neg _ hpb] at hfind
      have hne : ¬(b == a) := by
        intro hba
        have hba' : b = a := beq_iff_eq.mp hba
        rw [hba'] at hpb
        exact hpb (List.find?_some hfind)
      rw [List.erase_cons_tail hne, List.find?_cons_of_neg _ hpb]
      rw [List.filter_cons_of_neg hpb] at huniq
      exact ih hfind huniq

/-- Counterexample for C6 as stated: stepping onto a gold item of amount
`a = -5` leaves gold unchanged instead of adding `a`, and with a second
item stacked on the cell a subsequent query still finds an item. -/
theorem gold_pickup_cex :
    goldCexDungeon.item_at 1 0 =
      some { x := 1, y := 0, kind := "gold", amount := -5 } ∧
    goldCexDungeon.is_wall 1 0 = false ∧
    goldCexDungeon.monster_at 1 0 = none ∧
    goldCexDungeon.step_forward.player.gold ≠ goldCexDungeon.player.gold + (-5) ∧
    goldCexDungeon.step_forward.item_at 1 0 ≠ none := by
  refine ⟨by decide, by decide, by decide, by decide, by decide⟩

/-- C6 (amended): stepping onto the gold item found at the candidate cell
adds `max(0, amount)` to the player's gold (so exactly `amount` whenever
it is nonnegative), queues exactly one pickup message, removes the item,
and — when at most one item occupies that cell — a subsequent item query
there finds nothing. -/
theorem gold_pickup_amended (d : Dungeon) (it : Item)
    (hw : d.is_wall (d.player.x + d.dir_vec.1) (d.player.y + d.dir_vec.2) = false)
    (hm : d.monster_at (d.player.x + d.dir_vec.1) (d.player.y + d.dir_vec.2) = none)
    (hit : d.item_at (d.player.x + d.dir_vec.1) (d.player.y + d.dir_vec.2) = some it)
    (hkind : it.kind = "gold") :
    d.step_forward.player.gold = d.player.gold + max 0 it.amount ∧
    d.step_forward.messages =
      d.messages ++ ["Picked up " ++ toString it.amount ++ " gold."] ∧
    d.step_forward.items = d.items.erase it ∧
    ((d.items.filter fun j =>
        j.x == d.player.x + d.dir_vec.1 && j.y == d.player.y + d.dir_vec.2).length ≤ 1 →
      d.step_forward.item_at (d.player.x + d.dir_vec.1) (d.player.y + d.dir_vec.2) = none) := by
  have h1 := step_forward_moves d hm hw
  have hitA : (({ d with player := { d.player with
        x := d.player.x + d.dir_vec.1,
        y := d.player.y + d.dir_vec.2 } } : Dungeon).mark_visited
      (d.player.x + d.dir_vec.1) (d.player.y + d.dir_vec.2)).item_at
      (d.player.x + d.dir_vec.1) (d.player.y + d.dir_vec.2) = some it := hit
  rw [h1]
  simp only [Dungeon.on_enter, hitA, if_pos hkind]
  refine ⟨rfl, rfl, rfl, ?_⟩
  intro huniq
  have hfind : d.items.find? (fun j =>
      j.x == d.player.x + d.dir_vec.1 && j.y == d.player.y + d.dir_vec.2) = some it := hit
  have := find?_erase_of_unique d.items _ it hfind huniq
  exact this

/-- Witness for the amended C6 in `goldDungeon`. -/
theorem gold_pickup_amended_witness :
    goldDungeon.step_forward.player.gold = goldDungeon.player.gold + max 0 10 ∧
    goldDungeon.step_forward.messages =
      goldDungeon.messages ++ ["Picked up " ++ toString (10 : Int) ++ " gold."] ∧
    goldDungeon.step_forward.items =
      goldDungeon.items.erase { x := 1, y := 0, kind := "gold", amount := 10 } ∧
    goldDungeon.step_forward.item_at
      (goldDungeon.player.x + goldDungeon.dir_vec.1)
      (goldDungeon.player.y + goldDungeon.dir_vec.2) = none := by
  have h := gold_pickup_amended goldDungeon
    { x := 1, y := 0, kind := "gold", amount := 10 }
    (by decide) (by decide) (by decide) (by decide)
  exact ⟨h.1, h.2.1, h.2.2.1, h.2.2.2 (by decide)⟩

/-- Counterexample for C7 as stated: with an equipped bonus of `-1`
(loadable from a save) and a weapon item of bonus `-2` on the cell ahead,
the new bonus is strictly SMALLER than the current one, yet the code
equips the new weapon at clamped bonus `0`, because it compares
`max(0, atk)` rather than `atk` against the current bonus. -/
theorem weapon_pickup_cex :
    weaponCexDungeon.item_at 1 0 =
      some { x := 1, y := 0, kind := "weapon", name := some "Dagger", atk := -2 } ∧
    weaponCexDungeon.player.weapon = some "Axe" ∧
    weaponCexDungeon.player.weapon_atk = -1 ∧
    ¬ weaponCexDungeon.player.weapon_atk < (-2 : Int) ∧
    weaponCexDungeon.step_forward.player.weapon = some "Dagger" ∧
    weaponCexDungeon.step_forward.player.weapon_atk = 0 := by
  refine ⟨by decide, by decide, by decide, by decide, by decide, by decide⟩

/-- C7 (amended): when the player steps onto a weapon item, the code
compares the clamped bonus `new_atk = max(0, atk)` against the current
`weapon_atk or 0`: the weapon is replaced — name and clamped bonus — iff
no weapon is equipped or the clamped bonus is strictly greater (a tie
keeps the current weapon); exactly one message is queued either way, and
the item is removed from the world regardless. -/
theorem weapon_pickup_equips_iff_stronger (d : Dungeon) (it : Item)
    (hw : d.is_wall (d.player.x + d.dir_vec.1) (d.player.y + d.dir_vec.2) = false)
    (hm : d.monster_at (d.player.x + d.dir_vec.1) (d.player.y + d.dir_vec.2) = none)
    (hit : d.item_at (d.player.x + d.dir_vec.1) (d.player.y + d.dir_vec.2) = some it)
    (hkind : it.kind = "weapon") :
    (d.step_forward.player.weapon =
      if d.player.weapon = none ∨ max 0 it.atk > orZeroInt d.player.weapon_atk
      then some (str_or it.name "Weapon") else d.player.weapon) ∧
    (d.step_forward.player.weapon_atk =
      if d.player.weapon = none ∨ max 0 it.atk > orZeroInt d.player.weapon_atk
      then max 0 it.atk else d.player.weapon_atk) ∧
    d.step_forward.messages.length = d.messages.length + 1 ∧
    d.step_forward.items = d.items.erase it := by
  have h1 := step_forward_moves d hm hw
  have hitA : (({ d with player := { d.player with
        x := d.player.x + d.dir_vec.1,
        y := d.player.y + d.dir_vec.2 } } : Dungeon).mark_visited
      (d.player.x + d.dir_vec.1) (d.player.y + d.dir_vec.2)).item_at
      (d.player.x + d.dir_vec.1) (d.player.y + d.dir_vec.2) = some it := hit
  rw [h1]
  have hng : ¬ it.kind = "gold" := by rw [hkind]; decide
  simp only [Dungeon.on_enter, hitA, if_neg hng, if_pos hkind,
    mark_visited_player, mark_visited_items, mark_visited_messages, mark_visited_grid_eq]
  by_cases hcond : d.player.weapon = none ∨ max 0 it.atk > orZeroInt d.player.weapon_atk
  · rw [if_pos hcond, if_pos hcond, if_pos hcond]
    refine ⟨rfl, rfl, ?_, rfl⟩
    simp [List.length_append]
  · rw [if_neg hcond, if_neg hcond, if_neg hcond]
    refine ⟨rfl, rfl, ?_, rfl⟩
    simp [List.length_append]

/-- Witness for the amended C7: an atk-3 weapon is found while an atk-5
weapon is equipped; the current weapon is kept. -/
theorem weapon_pickup_witness :
    (weaponDungeon.step_forward.player.weapon =
      if weaponDungeon.player.weapon = none ∨
          max 0 (3 : Int) > orZeroInt weaponDungeon.player.weapon_atk
      then some (str_or (some "Dagger") "Weapon") else weaponDungeon.player.weapon) ∧
    (weaponDungeon.step_forward.player.weapon_atk =
      if weaponDungeon.player.weapon = none ∨
          max 0 (3 : Int) > orZeroInt weaponDungeon.player.weapon_atk
      then max 0 (3 : Int) else weaponDungeon.player.weapon_atk) ∧
    weaponDungeon.step_forward.messages.length = weaponDungeon.messages.length + 1 ∧
    weaponDungeon.step_forward.items = weaponDungeon.items.erase
      { x := 1, y := 0, kind := "weapon", name := some "Dagger", atk := 3 } :=
  weapon_pickup_equips_iff_stronger weaponDungeon
    { x := 1, y := 0, kind := "weapon", name := some "Dagger", atk := 3 }
    (by decide) (by decide) (by decide) (by decide)

/-- Counterexample for C8 as stated: loading a save without a `visited`
field rebuilds the all-false grid, but the player's cell is a wall, so it
is NOT marked visited, unlike the claim demands. -/
theorem load_visited_cex :
    (loadCexDungeon.load_dict loadCexData).visited = [[false]] ∧
    rebuilt_marked_spec [[1]] 0 0 = [[true]] ∧
    (loadCexDungeon.load_dict loadCexData).visited ≠ rebuilt_marked_spec [[1]] 0 0 := by
  refine ⟨by decide, by decide, by decide⟩

/-- C8 (amended): whenever the `visited` field is absent, malformed, empty
or has dimensions different from the loaded grid, `load_dict` installs the
freshly rebuilt all-false grid sized to the loaded grid, and then marks
the player's current cell visited exactly when that cell is in bounds and
a floor tile (`_mark_visited` skips walls and out-of-bounds cells). -/
theorem load_visited_rebuilt (d : Dungeon) (data : SaveData)
    (hvis : data.visited = .missing ∨ data.visited = .val [] ∨
      ∃ rows, data.visited = .val rows ∧ rows ≠ [] ∧
        ¬(rows.length = (data.grid.getD d.grid).length ∧
          ∀ row ∈ rows, row.length = (data.grid.getD d.grid).headI.length)) :
    (d.load_dict data).visited =
      markVisitedGrid (data.grid.getD d.grid)
        (rebuild_visited (data.grid.getD d.grid))
        (data.player_x.getD d.player.x) (data.player_y.getD d.player.y) := by
  rcases hvis with h | h | ⟨rows, h, hne, hdim⟩
  · simp only [Dungeon.load_dict, h]
  · simp only [Dungeon.load_dict, h]
    simp
  · simp only [Dungeon.load_dict, h]
    rw [if_pos hne, if_neg hdim]

/-- Witness for the amended C8 at the concrete save. -/
theorem load_visited_rebuilt_witness :
    (loadCexDungeon.load_dict loadCexData).visited =
      markVisitedGrid [[1]] (rebuild_visited [[1]]) 0 0 :=
  load_visited_rebuilt loadCexDungeon loadCexData (Or.inl rfl)

theorem getD_of_lt {α : Type} [Inhabited α] (l : List α) (i : Nat)
    (h : i < l.length) : l.getD i default = l[i] := by
  simp [List.getD_eq_getElem?_getD, List.getElem?_eq_getElem h]

theorem findIdx?_facts {α : Type} [Inhabited α] (p : α → Bool) (l : List α)
    (i : Nat) (h : l.findIdx? p = some i) :
    i < l.length ∧ p (l.getD i default) = true ∧
      ∀ j, j < i → p (l.getD j default) = false := by
  rw [List.findIdx?_eq_some_iff_getElem] at h
  obtain ⟨hlen, hp, hprev⟩ := h
  refine ⟨hlen, ?_, ?_⟩
  · rw [getD_of_lt _ _ hlen]; exact hp
  · intro j hj
    rw [getD_of_lt _ _ (Nat.lt_trans hj hlen)]
    have := hprev j hj
    cases hpj : p (l.get ⟨j, Nat.lt_trans hj hlen⟩)
    · rfl
    · exact absurd hpj this

theorem set_erase_eq_eraseIdx {α : Type} [DecidableEq α] [Inhabited α] :
    ∀ (l : List α) (i : Nat) (a : α), i < l.length →
      (∀ j, j < i → l.getD j default ≠ a) →
      (l.set i a).erase a = l.eraseIdx i := by
  intro l
  induction l with
  | nil => intro i a h _; simp at h
  | cons b t ih =>
    intro i a hlen hne
    cases i with
    | zero =>
      rw [List.set_cons_zero, List.erase_cons_head, List.eraseIdx_cons_zero]
    | succ j =>
      rw [List.set_cons_succ, List.eraseIdx_cons_succ]
      have hb : ¬(b == a) := by
        intro hba
        exact hne 0 (Nat.succ_pos j) (beq_iff_eq.mp hba)
      rw [List.erase_cons_tail hb]
      congr 1
      exact ih j a (by simpa using hlen) (fun k hk => hne (k + 1) (by omega))

theorem on_enter_messages (d : Dungeon) (x y : Int) :
    (d.on_enter x y).messages = d.messages ∨
    ∃ s, (d.on_enter x y).messages = d.messages ++ [s] ∧ s.data.head? ≠ some 'Y' := by
  rcases hit : d.item_at x y with _ | it
  · left
    simp [Dungeon.on_enter, hit]
  · simp only [Dungeon.on_enter, hit]
    split_ifs with h1 h2 h3
    · right
      refine ⟨_, rfl, ?_⟩
      have : ("Picked up " ++ toString it.amount ++ " gold.").data.head? = some 'P' := rfl
      rw [this]
      decide
    · right
      refine ⟨_, rfl, ?_⟩
      have : ("Equipped " ++ str_or it.name "Weapon" ++ " (+" ++
          toString (max 0 it.atk) ++ " atk).").data.head? = some 'E' := rfl
      rw [this]
      decide
    · right
      refine ⟨_, rfl, ?_⟩
      have : ("Found " ++ str_or it.name "weapon" ++ " (+" ++ toString (max 0 it.atk) ++
          "), but kept current.").data.head? = some 'F' := rfl
      rw [this]
      decide
    · left
      rfl

theorem try_combat_fst (d : Dungeon) (nx ny : Int) (i : Nat)
    (hf : d.monsters.findIdx? (fun m => m.x == nx && m.y == ny) = some i) :
    (d.try_combat nx ny).1 = true := by
  simp only [Dungeon.try_combat, hf]
  split <;> rfl

theorem step_forward_combat_eq (d : Dungeon)
    (h : (d.try_combat (d.player.x + d.dir_vec.1) (d.player.y + d.dir_vec.2)).1 = true) :
    d.step_forward = (d.try_combat (d.player.x + d.dir_vec.1) (d.player.y + d.dir_vec.2)).2 := by
  simp only [Dungeon.step_forward, h, if_true]

theorem step_back_combat_eq (d : Dungeon)
    (h : (d.try_combat (d.player.x - d.dir_vec.1) (d.player.y - d.dir_vec.2)).1 = true) :
    d.step_back = (d.try_combat (d.player.x - d.dir_vec.1) (d.player.y - d.dir_vec.2)).2 := by
  simp only [Dungeon.step_back, h, if_true]

theorem try_combat_spec (d : Dungeon) (nx ny : Int) (i : Nat)
    (hf : d.monsters.findIdx? (fun m => m.x == nx && m.y == ny) = some i) :
    combat_spec d (d.try_combat nx ny).2 (nx, ny) i := by
  obtain ⟨hlen, hpi, hprev⟩ := findIdx?_facts _ _ _ hf
  simp only [Bool.and_eq_true, beq_iff_eq] at hpi
  have hsplit : d.try_combat nx ny =
      if (hitMonster d i).hp ≤ 0 then
        (true, ((({ d with
            monsters := (d.monsters.set i (hitMonster d i)).erase (hitMonster d i),
            player := { d.player with x := nx, y := ny },
            messages := d.messages ++
              ["You defeated the " ++ (d.monsters.getD i default).name ++ "!"] } :
          Dungeon).mark_visited nx ny).on_enter nx ny))
      else
        (true, { d with
          monsters := d.monsters.set i (hitMonster d i),
          player := { d.player with
            hp := d.player.hp - max 0 (d.monsters.getD i default).atk },
          messages :=
            if d.player.hp - max 0 (d.monsters.getD i default).atk ≤ 0 then
              (d.messages ++
                ["You hit the " ++ (d.monsters.getD i default).name ++ " (" ++
                  toString (hitMonster d i).hp ++ " hp left). It hits you (-" ++
                  toString (d.monsters.getD i default).atk ++ " hp)."]) ++
                ["You have fallen..."]
            else d.messages ++
              ["You hit the " ++ (d.monsters.getD i default).name ++ " (" ++
                toString (hitMonster d i).hp ++ " hp left). It hits you (-" ++
                toString (d.monsters.getD i default).atk ++ " hp)."] }) := by
    unfold Dungeon.try_combat
    rw [hf]
    have hatk : d.player.atk = d.player.base_atk + d.player.weapon_atk := by
      unfold PlayerState.atk
      rw [orZeroInt_eq]
    rw [hatk]
  unfold combat_spec
  rcases le_or_lt (hitMonster d i).hp 0 with hk | hk
  · rw [if_pos hk] at hsplit
    constructor
    · intro _
      refine ⟨?_, ?_, ?_, ?_⟩
      · rw [hsplit]; exact ((on_enter_frame _ _ _).1).trans rfl
      · rw [hsplit]; exact ((on_enter_frame _ _ _).2.1).trans rfl
      · rw [hsplit]
        refine ((on_enter_frame _ _ _).2.2.2.2).trans ?_
        refine Eq.trans (b := (d.monsters.set i (hitMonster d i)).erase (hitMonster d i)) rfl ?_
        apply set_erase_eq_eraseIdx d.monsters i (hitMonster d i) hlen
        intro j hj hja
        have hx : (d.monsters.getD j default).x = nx := by rw [hja]; exact hpi.1
        have hy : (d.monsters.getD j default).y = ny := by rw [hja]; exact hpi.2
        have := hprev j hj
        simp only [hx, hy, beq_self_eq_true, Bool.and_self] at this
        exact absurd this (by decide)
      · rw [hsplit]
        have hAmsg : ((({ d with
            monsters := (d.monsters.set i (hitMonster d i)).erase (hitMonster d i),
            player := { d.player with x := nx, y := ny },
            messages := d.messages ++
              ["You defeated the " ++ (d.monsters.getD i default).name ++ "!"] } :
          Dungeon).mark_visited nx ny)).messages =
            d.messages ++ [victoryMsg (d.monsters.getD i default).name] := rfl
        rcases on_enter_messages (({ d with
            monsters := (d.monsters.set i (hitMonster d i)).erase (hitMonster d i),
            player := { d.player with x := nx, y := ny },
            messages := d.messages ++
              ["You defeated the " ++ (d.monsters.getD i default).name ++ "!"] } :
          Dungeon).mark_visited nx ny) nx ny with hmm | ⟨s, hmm, hs⟩
      -- continued below
        · show (_ : List String).count _ = _
          rw [hmm, hAmsg, List.count_append]
          rw [List.count_singleton_self]
        · show (_ : List String).count _ = _
          rw [hmm, hAmsg, List.count_append, List.count_append]
          have hvy : (victoryMsg (d.monsters.getD i default).name).data.head? = some 'Y' := rfl
          have hsv : ¬(s == victoryMsg (d.monsters.getD i default).name) := by
            intro hb
            have : s = victoryMsg (d.monsters.getD i default).name := beq_iff_eq.mp hb
            rw [this] at hs
            exact hs hvy
          rw [List.count_singleton_self, List.count_singleton]
          rw [if_neg ?hne]
          case hne =>
            intro hb
            exact hsv ((beq_iff_eq.mpr (beq_iff_eq.mp hb)))
    · intro hpos
      exact absurd hk (not_le.mpr hpos)
  · rw [if_neg (not_le.mpr hk)] at hsplit
    constructor
    · intro hle
      exact absurd hle (not_le.mpr hk)
    · intro _
      rw [hsplit]
      refine ⟨rfl, rfl, rfl, rfl, ?_⟩
      show (if d.player.hp - max 0 (d.monsters.getD i default).atk ≤ 0 then _ else _) = _
      split_ifs with hc
      · rfl
      · exact (List.append_nil _).symm

/-- C3: whenever `step_forward` (resp. `step_back`) targets a cell whose
first monster sits at list index `i`, the combat contract `combat_spec`
holds between the old and new state: a killing blow removes the monster,
queues exactly one victory message and moves the player in the same turn;
otherwise the monster keeps the reduced hp, the player loses
`max(0, monster atk)` hp, exactly one combat message is queued (plus the
defeat message exactly when the player's hp drops to 0 or below) and the
player does not move. -/
theorem combat_resolution (d : Dungeon) (i : Nat) :
    (d.monsters.findIdx? (fun m => m.x == d.fwd_cell.1 && m.y == d.fwd_cell.2) = some i →
      combat_spec d d.step_forward d.fwd_cell i) ∧
    (d.monsters.findIdx? (fun m => m.x == d.back_cell.1 && m.y == d.back_cell.2) = some i →
      combat_spec d d.step_back d.back_cell i) := by
  constructor
  · intro hf
    have ht := try_combat_fst d d.fwd_cell.1 d.fwd_cell.2 i hf
    have heq : d.step_forward = (d.try_combat d.fwd_cell.1 d.fwd_cell.2).2 :=
      step_forward_combat_eq d ht
    rw [heq]
    exact try_combat_spec d d.fwd_cell.1 d.fwd_cell.2 i hf
  · intro hf
    have ht := try_combat_fst d d.back_cell.1 d.back_cell.2 i hf
    have heq : d.step_back = (d.try_combat d.back_cell.1 d.back_cell.2).2 :=
      step_back_combat_eq d ht
    rw [heq]
    exact try_combat_spec d d.back_cell.1 d.back_cell.2 i hf

/-- Witness for C3: a 5-atk player steps into a 3-hp monster. -/
theorem combat_resolution_witness :
    combat_spec combatDungeon combatDungeon.step_forward combatDungeon.fwd_cell 0 :=
  (combat_resolution combatDungeon 0).1 (by decide)

/-- C2: `generate_maze` is deterministic: it consults nothing but its
arguments and a generator freshly seeded from `seed`, so two calls with
the same `(width, height, seed)` triple (over the same generator
semantics) return element-wise identical grids. -/
theorem generate_maze_deterministic {σ : Type} (R : PyRandom σ)
    (width height : Int) (seed : Option Int) (g1 g2 : MazeGrid)
    (h1 : g1 = generateMaze R width height seed)
    (h2 : g2 = generateMaze R width height seed) :
    ∀ p : Int × Int, g1 p = g2 p := by
  subst h1
  subst h2
  intro p
  rfl

/-- Witness for C2 with the trivial generator at `(31, 31, seed 7)`,
compared at cell `(3, 3)`. -/
theorem generate_maze_deterministic_witness :
    generateMaze TrivR 31 31 (some 7) (3, 3) =
      generateMaze TrivR 31 31 (some 7) (3, 3) :=
  generate_maze_deterministic TrivR 31 31 (some 7) _ _ rfl rfl (3, 3)

theorem mazeW_ge5 (width : Int) : 5 ≤ mazeW width := le_max_left _ _

theorem mazeW_odd (width : Int) : mazeW width % 2 = 1 := by
  unfold mazeW
  have h2 : (width + 1) % 2 = 0 ∨ (width + 1) % 2 = 1 := by omega
  rcases le_total 5 (width - (width + 1) % 2) with h | h
  · rw [max_eq_right h]
    omega
  · rw [max_eq_left h]
    decide

theorem carve_self (g : MazeGrid) (x y : Int) : carve g x y (x, y) = 0 := by
  unfold carve
  rw [if_pos rfl]

theorem carve_other (g : MazeGrid) (x y : Int) (p : Int × Int) (h : p ≠ (x, y)) :
    carve g x y p = g p := by
  unfold carve
  rw [if_neg h]

theorem carve_floor_mono (g : MazeGrid) (x y : Int) (p : Int × Int)
    (h : g p = 0) : carve g x y p = 0 := by
  unfold carve
  split
  · rfl
  · exact h

theorem mazeGraph_mono (g g' : MazeGrid) (h : ∀ p, g p = 0 → g' p = 0) :
    mazeGraph g ≤ mazeGraph g' := by
  intro a b hab
  exact ⟨h a hab.1, h b hab.2.1, hab.2.2⟩

theorem findCarve_some {g : MazeGrid} {w h x y : Int} {l : List (Int × Int)}
    {cs : (Int × Int) × (Int × Int)} (hfc : findCarve g w h x y l = some cs) :
    ∃ dd ∈ l, cs.1.1 = x + dd.1 ∧ cs.1.2 = y + dd.2 ∧
      cs.2.1 = x + dd.1.fdiv 2 ∧ cs.2.2 = y + dd.2.fdiv 2 ∧
      1 ≤ cs.1.1 ∧ cs.1.1 < w - 1 ∧ 1 ≤ cs.1.2 ∧ cs.1.2 < h - 1 ∧
      g (cs.1.1, cs.1.2) = 1 := by
  induction l with
  | nil => simp [findCarve] at hfc
  | cons dd rest ih =>
    obtain ⟨dx, dy⟩ := dd
    simp only [findCarve] at hfc
    split at hfc
    · rename_i hcond
      cases hfc
      exact ⟨(dx, dy), List.mem_cons_self _ _, rfl, rfl, rfl, rfl, hcond.1, hcond.2.1,
        hcond.2.2.1, hcond.2.2.2.1, hcond.2.2.2.2⟩
    · obtain ⟨ee, hmem, hrest⟩ := ih hfc
      exact ⟨ee, List.mem_cons_of_mem _ hmem, hrest⟩

theorem findCarve_none {g : MazeGrid} {w h x y : Int} {l : List (Int × Int)}
    (hfc : findCarve g w h x y l = none) :
    ∀ dd ∈ l, ¬(1 ≤ x + dd.1 ∧ x + dd.1 < w - 1 ∧ 1 ≤ y + dd.2 ∧
      y + dd.2 < h - 1 ∧ g (x + dd.1, y + dd.2) = 1) := by
  induction l with
  | nil => intro dd hdd; exact absurd hdd (List.not_mem_nil dd)
  | cons ee rest ih =>
    obtain ⟨ex, ey⟩ := ee
    simp only [findCarve] at hfc
    split at hfc
    · exact absurd hfc (by simp)
    · rename_i hcond
      intro dd hdd
      rcases List.mem_cons.mp hdd with rfl | hmem
      · exact hcond
      · exact ih hfc dd hmem

theorem closed_walk_mem_tail {V : Type} {G : SimpleGraph V} {v u : V}
    (c : G.Walk v v) (hnn : ¬c.Nil) : u ∈ c.support ↔ u ∈ c.support.tail := by
  cases c with
  | nil => simp at hnn
  | cons h p =>
    simp only [SimpleGraph.Walk.support_cons, List.tail_cons]
    constructor
    · intro hu
      rcases List.mem_cons.mp hu with rfl | hm
      · exact p.end_mem_support
      · exact hm
    · exact fun hm => List.mem_cons_of_mem _ hm

theorem cycle_two_adj {V : Type} [DecidableEq V] {G : SimpleGraph V} {v : V} {c : G.Walk v v}
    (hc : c.IsCycle) {u : V} (hu : u ∈ c.support) :
    ∃ a b, a ≠ b ∧ G.Adj u a ∧ G.Adj u b ∧ a ∈ c.support ∧ b ∈ c.support := by
  have hc' := hc.rotate hu
  have hmem : ∀ x, x ∈ (c.rotate hu).support ↔ x ∈ c.support := by
    intro x
    rw [closed_walk_mem_tail (c.rotate hu) hc'.not_nil, closed_walk_mem_tail c hc.not_nil]
    exact (SimpleGraph.Walk.support_rotate c hu).mem_iff
  obtain ⟨a, hadj, q, hq⟩ := SimpleGraph.Walk.not_nil_iff.mp hc'.not_nil
  have hlen : 3 ≤ (c.rotate hu).length := hc'.three_le_length
  have hqlen : 2 ≤ q.length := by
    have : (c.rotate hu).length = q.length + 1 := by
      rw [hq, SimpleGraph.Walk.length_cons]
    omega
  have hdne : q.darts ≠ [] := by
    intro hnil
    have hdl := SimpleGraph.Walk.length_darts q
    rw [hnil] at hdl
    simp at hdl
    omega
  have hsnd : (q.darts.getLast hdne).snd = u := SimpleGraph.Walk.getLast_darts_snd q hdne
  have hbadj : G.Adj u (q.darts.getLast hdne).fst := by
    have hda := (q.darts.getLast hdne).adj
    rw [hsnd] at hda
    exact hda.symm
  have hamem : a ∈ (c.rotate hu).support := by
    rw [hq, SimpleGraph.Walk.support_cons]
    exact List.mem_cons_of_mem _ q.start_mem_support
  have hbmem : (q.darts.getLast hdne).fst ∈ (c.rotate hu).support := by
    rw [hq, SimpleGraph.Walk.support_cons]
    exact List.mem_cons_of_mem _
      (SimpleGraph.Walk.dart_fst_mem_support_of_mem_darts q (List.getLast_mem hdne))
  have hne : a ≠ (q.darts.getLast hdne).fst := by
    intro heq
    have hnodup : (c.rotate hu).edges.Nodup := hc'.isTrail.edges_nodup
    rw [hq, SimpleGraph.Walk.edges_cons] at hnodup
    have hnotmem := (List.nodup_cons.mp hnodup).1
    have hmemedge : (q.darts.getLast hdne).edge ∈ q.edges :=
      List.mem_map_of_mem _ (List.getLast_mem hdne)
    have hedgeeq : (q.darts.getLast hdne).edge = s(u, a) := by
      have h1 : (q.darts.getLast hdne).toProd = (a, u) := by
        rw [Prod.ext_iff]
        exact ⟨heq.symm, hsnd⟩
      unfold SimpleGraph.Dart.edge
      rw [h1]
      exact Sym2.eq_swap
    rw [hedgeeq] at hmemedge
    exact hnotmem hmemedge
  exact ⟨a, (q.darts.getLast hdne).fst, hne, hadj, hbadj,
    (hmem a).mp hamem, (hmem _).mp hbmem⟩

theorem isAcyclic_pendant {V : Type} [DecidableEq V] (G G' : SimpleGraph V) (b n x0 : V)
    (hnew : ∀ u v, G'.Adj u v → G.Adj u v ∨ u = b ∨ u = n ∨ v = b ∨ v = n)
    (hn : ∀ q, G'.Adj n q → q = b)
    (hb : ∀ q, G'.Adj b q → q = x0 ∨ q = n)
    (hacyc : G.IsAcyclic) : G'.IsAcyclic := by
  intro v c hc
  have hnmem : n ∉ c.support := by
    intro hmem
    obtain ⟨a1, a2, hne, ha1, ha2, _, _⟩ := cycle_two_adj hc hmem
    rw [hn a1 ha1, hn a2 ha2] at hne
    exact hne rfl
  have hbmem : b ∉ c.support := by
    intro hmem
    obtain ⟨a1, a2, hne, ha1, ha2, hs1, hs2⟩ := cycle_two_adj hc hmem
    rcases hb a1 ha1 with rfl | rfl
    · rcases hb a2 ha2 with rfl | rfl
      · exact hne rfl
      · exact hnmem hs2
    · exact hnmem hs1
  have hedges : ∀ e ∈ c.edges, e ∈ G.edgeSet := by
    intro e he
    induction e using Sym2.ind with
    | _ p q =>
      have hadj : G'.Adj p q := c.adj_of_mem_edges he
      have hp : p ∈ c.support := SimpleGraph.Walk.fst_mem_support_of_mem_edges c he
      have hq : q ∈ c.support := SimpleGraph.Walk.snd_mem_support_of_mem_edges c he
      rcases hnew p q hadj with h | rfl | rfl | rfl | rfl
      · exact h
      · exact absurd hp hbmem
      · exact absurd hp hnmem
      · exact absurd hq hbmem
      · exact absurd hq hnmem
  exact hacyc (c.transfer G hedges) (hc.transfer hedges)

set_option maxHeartbeats 1600000 in
theorem inv_carve (w h : Int) (hw2 : w % 2 = 1) (hh2 : h % 2 = 1)
    (s : Int × Int) (g : MazeGrid) (x y nx ny bx b_y : Int)
    (rest : List (Int × Int))
    (inv : MazeInv w h s g ((x, y) :: rest))
    (hmid : 2 * bx = x + nx ∧ 2 * b_y = y + ny)
    (hdiff : (nx = x ∧ (ny - y).natAbs = 2) ∨ (ny = y ∧ (nx - x).natAbs = 2))
    (hnb : 1 ≤ nx ∧ nx < w - 1 ∧ 1 ≤ ny ∧ ny < h - 1)
    (hwall : g (nx, ny) = 1) :
    MazeInv w h s (carve (carve g bx b_y) nx ny) ((nx, ny) :: (x, y) :: rest) := by
  obtain ⟨hxyodd, hxyfloor⟩ := inv.stack_ok (x, y) (List.mem_cons_self _ _)
  obtain ⟨⟨hx1, hx2, hy1, hy2⟩, hxodd, hyodd⟩ := hxyodd
  simp only at hxodd hyodd hx1 hx2 hy1 hy2
  rcases hdiff with ⟨hexy, habs⟩ | ⟨hexy, habs⟩ <;>
  · have hnxodd : nx % 2 = 1 := by omega
    have hnyodd : ny % 2 = 1 := by omega
    have hF3 : (bx % 2 = 0 ∧ b_y % 2 = 1) ∨ (bx % 2 = 1 ∧ b_y % 2 = 0) := by omega
    have hF5 : OddCell w h (nx, ny) :=
      ⟨⟨by omega, by omega, by omega, by omega⟩, hnxodd, hnyodd⟩
    have hF4 : InnerCell w h (bx, b_y) := ⟨by omega, by omega, by omega, by omega⟩
    have hF1 : cellAdj (x, y) (bx, b_y) := by unfold cellAdj; simp only; omega
    have hF2 : cellAdj (bx, b_y) (nx, ny) := by unfold cellAdj; simp only; omega
    have hbn : (bx, b_y) ≠ (nx, ny) := by
      intro he
      rw [Prod.ext_iff] at he
      simp only at he
      omega
    have hbxy : (bx, b_y) ≠ (x, y) := by
      intro he
      rw [Prod.ext_iff] at he
      simp only at he
      omega
    have hbwall : g (bx, b_y) = 1 := by
      rcases inv.vals (bx, b_y) with h0 | h1
      · exfalso
        rcases hF3 with ⟨hbe, _⟩ | ⟨_, hbe⟩
        · obtain ⟨hl, hr⟩ := inv.ends_x bx b_y h0 hbe
          have : g (nx, ny) = 0 := by
            rcases (by omega : (bx - 1 = nx ∧ b_y = ny) ∨ (bx + 1 = nx ∧ b_y = ny)) with
              ⟨h1, h2⟩ | ⟨h1, h2⟩
            · rw [← h1, ← h2]; exact hl
            · rw [← h1, ← h2]; exact hr
          omega
        · obtain ⟨hl, hr⟩ := inv.ends_y bx b_y h0 hbe
          have : g (nx, ny) = 0 := by
            rcases (by omega : (b_y - 1 = ny ∧ bx = nx) ∨ (b_y + 1 = ny ∧ bx = nx)) with
              ⟨h1, h2⟩ | ⟨h1, h2⟩
            · rw [← h2, ← h1]; exact hl
            · rw [← h2, ← h1]; exact hr
          omega
      · exact h1
    have hgn : carve (carve g bx b_y) nx ny (nx, ny) = 0 := carve_self _ _ _
    have hgb : carve (carve g bx b_y) nx ny (bx, b_y) = 0 := by
      rw [carve_other _ _ _ _ hbn]
      exact carve_self _ _ _
    have hmono : ∀ p, g p = 0 → carve (carve g bx b_y) nx ny p = 0 := fun p hp =>
      carve_floor_mono _ _ _ _ (carve_floor_mono _ _ _ _ hp)
    have hgeval : ∀ p, p ≠ (nx, ny) → p ≠ (bx, b_y) →
        carve (carve g bx b_y) nx ny p = g p := by
      intro p h1 h2
      rw [carve_other _ _ _ _ h1, carve_other _ _ _ _ h2]
    have hchar : ∀ p, carve (carve g bx b_y) nx ny p = 0 →
        p = (nx, ny) ∨ p = (bx, b_y) ∨ g p = 0 := by
      intro p hp
      by_cases h1 : p = (nx, ny)
      · exact Or.inl h1
      by_cases h2 : p = (bx, b_y)
      · exact Or.inr (Or.inl h2)
      rw [hgeval p h1 h2] at hp
      exact Or.inr (Or.inr hp)
    refine ⟨?_, ?_, ?_, ?_, ?_, ?_, ?_, ?_, ?_⟩
    · intro p
      by_cases h1 : p = (nx, ny)
      · rw [h1, hgn]; exact Or.inl rfl
      by_cases h2 : p = (bx, b_y)
      · rw [h2, hgb]; exact Or.inl rfl
      rw [hgeval p h1 h2]
      exact inv.vals p
    · intro p hp
      rcases hchar p hp with rfl | rfl | h0
      · exact ⟨hF5.1, Or.inl hnxodd⟩
      · refine ⟨hF4, ?_⟩
        rcases hF3 with ⟨_, hb1⟩ | ⟨hb1, _⟩
        · exact Or.inr hb1
        · exact Or.inl hb1
      · exact inv.shape p h0
    · intro x' y' hp hev
      rcases hchar (x', y') hp with he | he | h0
      · rw [Prod.ext_iff] at he
        simp only at he
        omega
      · rw [Prod.ext_iff] at he
        simp only at he
        rw [he.1, he.2]
        constructor
        · rcases (by omega : (bx - 1 = x ∧ b_y = y) ∨ (bx - 1 = nx ∧ b_y = ny)) with
            ⟨h1, h2⟩ | ⟨h1, h2⟩
          · rw [show ((bx - 1 : Int), b_y) = ((x : Int), y) from by rw [h1, h2]]
            exact hmono _ hxyfloor
          · rw [show ((bx - 1 : Int), b_y) = ((nx : Int), ny) from by rw [h1, h2]]
            exact hgn
        · rcases (by omega : (bx + 1 = x ∧ b_y = y) ∨ (bx + 1 = nx ∧ b_y = ny)) with
            ⟨h1, h2⟩ | ⟨h1, h2⟩
          · rw [show ((bx + 1 : Int), b_y) = ((x : Int), y) from by rw [h1, h2]]
            exact hmono _ hxyfloor
          · rw [show ((bx + 1 : Int), b_y) = ((nx : Int), ny) from by rw [h1, h2]]
            exact hgn
      · obtain ⟨hl, hr⟩ := inv.ends_x x' y' h0 hev
        exact ⟨hmono _ hl, hmono _ hr⟩
    · intro x' y' hp hev
      rcases hchar (x', y') hp with he | he | h0
      · rw [Prod.ext_iff] at he
        simp only at he
        omega
      · rw [Prod.ext_iff] at he
        simp only at he
        rw [he.1, he.2]
        constructor
        · rcases (by omega : (b_y - 1 = y ∧ bx = x) ∨ (b_y - 1 = ny ∧ bx = nx)) with
            ⟨h1, h2⟩ | ⟨h1, h2⟩
          · rw [show ((bx : Int), b_y - 1) = ((x : Int), y) from by rw [h1, h2]]
            exact hmono _ hxyfloor
          · rw [show ((bx : Int), b_y - 1) = ((nx : Int), ny) from by rw [h1, h2]]
            exact hgn
        · rcases (by omega : (b_y + 1 = y ∧ bx = x) ∨ (b_y + 1 = ny ∧ bx = nx)) with
            ⟨h1, h2⟩ | ⟨h1, h2⟩
          · rw [show ((bx : Int), b_y + 1) = ((x : Int), y) from by rw [h1, h2]]
            exact hmono _ hxyfloor
          · rw [show ((bx : Int), b_y + 1) = ((nx : Int), ny) from by rw [h1, h2]]
            exact hgn
      · obtain ⟨hl, hr⟩ := inv.ends_y x' y' h0 hev
        exact ⟨hmono _ hl, hmono _ hr⟩
    · intro p hp
      rcases List.mem_cons.mp hp with rfl | hp2
      · exact ⟨hF5, hgn⟩
      · obtain ⟨ho, hf⟩ := inv.stack_ok p hp2
        exact ⟨ho, hmono p hf⟩
    · exact hmono s inv.start_floor
    · have hle : mazeGraph g ≤ mazeGraph (carve (carve g bx b_y) nx ny) :=
        mazeGraph_mono _ _ hmono
      have hreachb : (mazeGraph (carve (carve g bx b_y) nx ny)).Reachable s (bx, b_y) := by
        refine SimpleGraph.Reachable.trans ((inv.conn (x, y) hxyfloor).mono hle) ?_
        exact SimpleGraph.Adj.reachable ⟨hmono _ hxyfloor, hgb, hF1⟩
      intro p hp
      rcases hchar p hp with rfl | rfl | h0
      · exact hreachb.trans (SimpleGraph.Adj.reachable ⟨hgb, hgn, hF2⟩)
      · exact hreachb
      · exact (inv.conn p h0).mono hle
    · intro p hpodd hpfloor hpstack dd hdd hoddn
      have hpn : p ≠ (nx, ny) := fun he => hpstack (he ▸ List.mem_cons_self _ _)
      have hpb : p ≠ (bx, b_y) := by
        intro he
        obtain ⟨_, hpodd1, hpodd2⟩ := hpodd
        rw [he] at hpodd1 hpodd2
        simp only at hpodd1 hpodd2
        omega
      have hold : g p = 0 := by
        rw [hgeval p hpn hpb] at hpfloor
        exact hpfloor
      have hpstack' : p ∉ (x, y) :: rest := fun hm =>
        hpstack (List.mem_cons_of_mem _ hm)
      exact hmono _ (inv.sat p hpodd hold hpstack' dd hdd hoddn)
    · refine isAcyclic_pendant (mazeGraph g) _ (bx, b_y) (nx, ny) (x, y) ?_ ?_ ?_ inv.acyc
      · intro u v huv
        by_cases h1 : u = (bx, b_y)
        · exact Or.inr (Or.inl h1)
        by_cases h2 : u = (nx, ny)
        · exact Or.inr (Or.inr (Or.inl h2))
        by_cases h3 : v = (bx, b_y)
        · exact Or.inr (Or.inr (Or.inr (Or.inl h3)))
        by_cases h4 : v = (nx, ny)
        · exact Or.inr (Or.inr (Or.inr (Or.inr h4)))
        left
        refine ⟨?_, ?_, huv.2.2⟩
        · rw [← hgeval u h2 h1]; exact huv.1
        · rw [← hgeval v h4 h3]; exact huv.2.1
      · rintro ⟨qx, qy⟩ hq
        obtain ⟨hqn0, hqfloor, hqadj⟩ := hq
        by_cases hqb : (qx, qy) = (bx, b_y)
        · exact hqb
        exfalso
        have hqnn : (qx, qy) ≠ (nx, ny) := by
          intro he
          rw [he] at hqadj
          unfold cellAdj at hqadj
          simp only at hqadj
          omega
        have hq0 : g (qx, qy) = 0 := by
          rw [hgeval _ hqnn hqb] at hqfloor
          exact hqfloor
        unfold cellAdj at hqadj
        simp only at hqadj
        have hqbne : ¬(qx = bx ∧ qy = b_y) := by
          intro he
          exact hqb (by rw [he.1, he.2])
        rcases (by omega : (qy = ny ∧ (qx - 1 = nx ∨ qx + 1 = nx) ∧ qx % 2 = 0) ∨
            (qx = nx ∧ (qy - 1 = ny ∨ qy + 1 = ny) ∧ qy % 2 = 0)) with
          ⟨hqy, hcase, hqe⟩ | ⟨hqx, hcase, hqe⟩
        · obtain ⟨hl, hr⟩ := inv.ends_x qx qy hq0 hqe
          rcases hcase with h1 | h1
          · rw [h1, hqy] at hl; omega
          · rw [h1, hqy] at hr; omega
        · obtain ⟨hl, hr⟩ := inv.ends_y qx qy hq0 hqe
          rcases hcase with h1 | h1
          · rw [h1, hqx] at hl; omega
          · rw [h1, hqx] at hr; omega
      · rintro ⟨qx, qy⟩ hq
        obtain ⟨hqb0, hqfloor, hqadj⟩ := hq
        unfold cellAdj at hqadj
        simp only at hqadj
        by_cases hqn : (qx, qy) = (nx, ny)
        · exact Or.inr hqn
        by_cases hqxy : (qx, qy) = (x, y)
        · exact Or.inl hqxy
        exfalso
        have hqb : (qx, qy) ≠ (bx, b_y) := by
          intro he
          rw [Prod.ext_iff] at he
          simp only at he
          omega
        have hq0 : g (qx, qy) = 0 := by
          rw [hgeval _ hqn hqb] at hqfloor
          exact hqfloor
        obtain ⟨_, hsh⟩ := inv.shape _ hq0
        simp only at hsh
        rw [Prod.ext_iff] at hqn hqxy
        simp only at hqn hqxy
        omega

theorem inv_pop (w h : Int) (s : Int × Int) (g : MazeGrid) (x y : Int)
    (rest dirs' : List (Int × Int))
    (inv : MazeInv w h s g ((x, y) :: rest))
    (hperm : dirs'.Perm dirs0)
    (hfc : findCarve g w h x y dirs' = none) :
    MazeInv w h s g rest := by
  refine ⟨inv.vals, inv.shape, inv.ends_x, inv.ends_y, ?_, inv.start_floor,
    inv.conn, ?_, inv.acyc⟩
  · intro p hp
    exact inv.stack_ok p (List.mem_cons_of_mem _ hp)
  · intro p hpodd hpfloor hpstack dd hdd hoddn
    by_cases hpxy : p = (x, y)
    · subst hpxy
      have hdd' : dd ∈ dirs' := hperm.mem_iff.mpr hdd
      have hng := findCarve_none hfc dd hdd'
      obtain ⟨⟨hb1, hb2, hb3, hb4⟩, _, _⟩ := hoddn
      simp only at hb1 hb2 hb3 hb4
      rcases inv.vals ((x, y).1 + dd.1, (x, y).2 + dd.2) with h0 | h1
      · exact h0
      · exact absurd ⟨by omega, by omega, by omega, by omega, h1⟩ hng
    · refine inv.sat p hpodd hpfloor ?_ dd hdd hoddn
      intro hm
      rcases List.mem_cons.mp hm with he | hm2
      · exact hpxy he
      · exact hpstack hm2

theorem wallCount_carve_lt (w h : Int) (g : MazeGrid) (nx ny bx b_y : Int)
    (hn : 1 ≤ nx ∧ nx ≤ w - 2 ∧ 1 ≤ ny ∧ ny ≤ h - 2) (hwall : g (nx, ny) = 1) :
    wallCount w h (carve (carve g bx b_y) nx ny) < wallCount w h g := by
  apply Finset.card_lt_card
  rw [Finset.ssubset_iff_of_subset]
  · refine ⟨(nx, ny), ?_, ?_⟩
    · simp only [Finset.mem_filter, Finset.mem_product, Finset.mem_Icc]
      exact ⟨⟨⟨hn.1, hn.2.1⟩, hn.2.2.1, hn.2.2.2⟩, hwall⟩
    · simp only [Finset.mem_filter, carve]
      rintro ⟨-, hbad⟩
      simp at hbad
  · intro p hp
    simp only [Finset.mem_filter, carve] at hp ⊢
    refine ⟨hp.1, ?_⟩
    have := hp.2
    split at this
    · exact absurd this Nat.zero_ne_one
    · split at this
      · exact absurd this Nat.zero_ne_one
      · exact this

theorem mazeLoop_inv {σ : Type} (R : PyRandom σ) (hR : LawfulPyRandom R)
    (w h : Int) (hw2 : w % 2 = 1) (hh2 : h % 2 = 1) (s : Int × Int) :
    ∀ (n : Nat) (g : MazeGrid) (stack dirs : List (Int × Int)) (rs : σ),
      2 * wallCount w h g + stack.length ≤ n →
      dirs.Perm dirs0 →
      MazeInv w h s g stack →
      MazeInv w h s (mazeLoop R w h g stack dirs rs) [] := by
  intro n
  induction n with
  | zero =>
    intro g stack dirs rs hm hperm inv
    cases stack with
    | nil => simp only [mazeLoop]; exact inv
    | cons p rest =>
      simp only [List.length_cons] at hm
      omega
  | succ n ih =>
    intro g stack dirs rs hm hperm inv
    cases stack with
    | nil => simp only [mazeLoop]; exact inv
    | cons p rest =>
      obtain ⟨x, y⟩ := p
      have hperm' : ((R.shuffle rs dirs).1).Perm dirs0 :=
        (hR.shuffle_perm rs dirs).trans hperm
      simp only [mazeLoop]
      split
      case h_2 hfc =>
        apply ih
        · simp only [List.length_cons] at hm
          omega
        · exact hperm'
        · exact inv_pop w h s g x y rest _ inv hperm' hfc
      case h_1 cells hfc =>
        obtain ⟨⟨nx, ny⟩, ⟨bx, b_y⟩⟩ := cells
        obtain ⟨dd, hdd, h1, h2, h3, h4, hb1, hb2, hb3, hb4, hwall⟩ := findCarve_some hfc
        simp only at h1 h2 h3 h4 hb1 hb2 hb3 hb4 hwall
        have hdd0 : dd ∈ dirs0 := hperm'.mem_iff.mp hdd
        have hcase : dd = ((0 : Int), (-2 : Int)) ∨ dd = ((0 : Int), (2 : Int)) ∨
            dd = ((-2 : Int), (0 : Int)) ∨ dd = ((2 : Int), (0 : Int)) := by
          simpa [dirs0] using hdd0
        have hmd : (2 * bx = x + nx ∧ 2 * b_y = y + ny) ∧
            ((nx = x ∧ (ny - y).natAbs = 2) ∨ (ny = y ∧ (nx - x).natAbs = 2)) := by
          rcases hcase with rfl | rfl | rfl | rfl
          · dsimp only at h1 h2 h3 h4
            rw [show ((0 : Int)).fdiv 2 = 0 from by decide] at h3
            rw [show ((-2 : Int)).fdiv 2 = -1 from by decide] at h4
            omega
          · dsimp only at h1 h2 h3 h4
            rw [show ((0 : Int)).fdiv 2 = 0 from by decide] at h3
            rw [show ((2 : Int)).fdiv 2 = 1 from by decide] at h4
            omega
          · dsimp only at h1 h2 h3 h4
            rw [show ((-2 : Int)).fdiv 2 = -1 from by decide] at h3
            rw [show ((0 : Int)).fdiv 2 = 0 from by decide] at h4
            omega
          · dsimp only at h1 h2 h3 h4
            rw [show ((2 : Int)).fdiv 2 = 1 from by decide] at h3
            rw [show ((0 : Int)).fdiv 2 = 0 from by decide] at h4
            omega
        apply ih
        · have hlt := wallCount_carve_lt w h g nx ny bx b_y
            ⟨hb1, by omega, hb3, by omega⟩ hwall
          simp only [List.length_cons] at hm ⊢
          omega
        · exact hperm'
        · exact inv_carve w h hw2 hh2 s g x y nx ny bx b_y rest inv hmd.1 hmd.2
            ⟨hb1, hb2, hb3, hb4⟩ hwall

theorem odd_all_floor (w h : Int) (g : MazeGrid) (sx sy : Int)
    (hs : OddCell w h (sx, sy)) (hsf : g (sx, sy) = 0)
    (hsat : ∀ p, OddCell w h p → g p = 0 → ∀ dd ∈ dirs0,
      OddCell w h (p.1 + dd.1, p.2 + dd.2) → g (p.1 + dd.1, p.2 + dd.2) = 0) :
    ∀ q, OddCell w h q → g q = 0 := by
  obtain ⟨⟨c1, c2, c3, c4⟩, d1, d2⟩ := hs
  simp only at c1 c2 c3 c4 d1 d2
  have key : ∀ (n : Nat) (qx qy : Int), OddCell w h (qx, qy) →
      ((qx - sx).natAbs + (qy - sy).natAbs) = n → g (qx, qy) = 0 := by
    intro n
    induction n using Nat.strong_induction_on with
    | _ n ih =>
      intro qx qy hq hn
      obtain ⟨⟨a1, a2, a3, a4⟩, b1, b2⟩ := hq
      simp only at a1 a2 a3 a4 b1 b2
      by_cases hx : qx = sx
      · by_cases hy : qy = sy
        · rw [hx, hy]; exact hsf
        · rcases lt_or_gt_of_ne hy with hlt | hgt
          · have hq' : OddCell w h (qx, qy + 2) :=
              ⟨⟨by omega, by omega, by omega, by omega⟩, by omega, by omega⟩
            have hrec : g (qx, qy + 2) = 0 :=
              ih ((qx - sx).natAbs + (qy + 2 - sy).natAbs) (by omega) qx (qy + 2) hq' rfl
            have hstep := hsat (qx, qy + 2) hq' hrec (0, -2) (by simp [dirs0])
            have hcell : ((qx, qy + 2).1 + (0 : Int), (qx, qy + 2).2 + (-2 : Int)) =
                (qx, qy) := by
              rw [Prod.ext_iff]
              constructor <;> simp <;> ring
            rw [hcell] at hstep
            exact hstep ⟨⟨by omega, by omega, by omega, by omega⟩, by omega, by omega⟩
          · have hq' : OddCell w h (qx, qy - 2) :=
              ⟨⟨by omega, by omega, by omega, by omega⟩, by omega, by omega⟩
            have hrec : g (qx, qy - 2) = 0 :=
              ih ((qx - sx).natAbs + (qy - 2 - sy).natAbs) (by omega) qx (qy - 2) hq' rfl
            have hstep := hsat (qx, qy - 2) hq' hrec (0, 2) (by simp [dirs0])
            have hcell : ((qx, qy - 2).1 + (0 : Int), (qx, qy - 2).2 + (2 : Int)) =
                (qx, qy) := by
              rw [Prod.ext_iff]
              constructor <;> simp <;> ring
            rw [hcell] at hstep
            exact hstep ⟨⟨by omega, by omega, by omega, by omega⟩, by omega, by omega⟩
      · rcases lt_or_gt_of_ne hx with hlt | hgt
        · have hq' : OddCell w h (qx + 2, qy) :=
            ⟨⟨by omega, by omega, by omega, by omega⟩, by omega, by omega⟩
          have hrec : g (qx + 2, qy) = 0 :=
            ih ((qx + 2 - sx).natAbs + (qy - sy).natAbs) (by omega) (qx + 2) qy hq' rfl
          have hstep := hsat (qx + 2, qy) hq' hrec (-2, 0) (by simp [dirs0])
          have hcell : ((qx + 2, qy).1 + (-2 : Int), (qx + 2, qy).2 + (0 : Int)) =
              (qx, qy) := by
            rw [Prod.ext_iff]
            constructor <;> simp <;> ring
          rw [hcell] at hstep
          exact hstep ⟨⟨by omega, by omega, by omega, by omega⟩, by omega, by omega⟩
        · have hq' : OddCell w h (qx - 2, qy) :=
            ⟨⟨by omega, by omega, by omega, by omega⟩, by omega, by omega⟩
          have hrec : g (qx - 2, qy) = 0 :=
            ih ((qx - 2 - sx).natAbs + (qy - sy).natAbs) (by omega) (qx - 2) qy hq' rfl
          have hstep := hsat (qx - 2, qy) hq' hrec (2, 0) (by simp [dirs0])
          have hcell : ((qx - 2, qy).1 + (2 : Int), (qx - 2, qy).2 + (0 : Int)) =
              (qx, qy) := by
            rw [Prod.ext_iff]
            constructor <;> simp <;> ring
          rw [hcell] at hstep
          exact hstep ⟨⟨by omega, by omega, by omega, by omega⟩, by omega, by omega⟩
  intro q hq
  obtain ⟨qx, qy⟩ := q
  exact key _ qx qy hq rfl

theorem inv_init (w h : Int) (hw5 : 5 ≤ w) (hw2 : w % 2 = 1)
    (hh5 : 5 ≤ h) (hh2 : h % 2 = 1) (sx sy : Int)
    (hsx : 1 ≤ sx ∧ sx < w ∧ sx % 2 = 1) (hsy : 1 ≤ sy ∧ sy < h ∧ sy % 2 = 1) :
    MazeInv w h (sx, sy) (carve (fun _ => 1) sx sy) [(sx, sy)] := by
  obtain ⟨hsx1, hsx2, hsx3⟩ := hsx
  obtain ⟨hsy1, hsy2, hsy3⟩ := hsy
  have hchar : ∀ p, carve (fun _ => (1 : Nat)) sx sy p = 0 ↔ p = (sx, sy) := by
    intro p
    unfold carve
    split
    · rename_i he
      exact ⟨fun _ => he, fun _ => rfl⟩
    · rename_i he
      exact ⟨fun h0 => absurd h0 one_ne_zero, fun hp => absurd hp he⟩
  have hso : OddCell w h (sx, sy) :=
    ⟨⟨by omega, by omega, by omega, by omega⟩, hsx3, hsy3⟩
  refine ⟨?_, ?_, ?_, ?_, ?_, ?_, ?_, ?_, ?_⟩
  · intro p
    unfold carve
    split
    · exact Or.inl rfl
    · exact Or.inr rfl
  · intro p hp
    rw [hchar] at hp
    subst hp
    exact ⟨hso.1, Or.inl hsx3⟩
  · intro x' y' hp hev
    exfalso
    rw [hchar] at hp
    rw [Prod.ext_iff] at hp
    simp only at hp
    omega
  · intro x' y' hp hev
    exfalso
    rw [hchar] at hp
    rw [Prod.ext_iff] at hp
    simp only at hp
    omega
  · intro p hp
    rcases List.mem_cons.mp hp with rfl | hp2
    · exact ⟨hso, carve_self _ _ _⟩
    · exact absurd hp2 (List.not_mem_nil p)
  · exact carve_self _ _ _
  · intro p hp
    rw [hchar] at hp
    subst hp
    exact SimpleGraph.Reachable.refl _
  · intro p hpodd hpfloor hpstack dd hdd hoddn
    exfalso
    rw [hchar] at hpfloor
    exact hpstack (hpfloor ▸ List.mem_cons_self _ _)
  · intro v c hc
    obtain ⟨a, hadj, q, hq⟩ := SimpleGraph.Walk.not_nil_iff.mp hc.not_nil
    have hv := (hchar v).mp hadj.1
    have ha := (hchar a).mp hadj.2.1
    have hca := hadj.2.2
    rw [hv, ha] at hca
    unfold cellAdj at hca
    simp only at hca
    omega

theorem generateMaze_inv {σ : Type} (R : PyRandom σ) (hR : LawfulPyRandom R)
    (width height : Int) (seed : Option Int) :
    ∃ s : Int × Int,
      MazeInv (mazeW width) (mazeW height) s (generateMaze R width height seed) [] ∧
      OddCell (mazeW width) (mazeW height) s ∧
      ∀ q, OddCell (mazeW width) (mazeW height) q →
        generateMaze R width height seed q = 0 := by
  have hw5 := mazeW_ge5 width
  have hw2 := mazeW_odd width
  have hh5 := mazeW_ge5 height
  have hh2 := mazeW_odd height
  obtain ⟨hsx1, hsx2, hsx3⟩ :=
    hR.randrange_mem (R.init seed) 1 (mazeW width) (by omega)
  obtain ⟨hsy1, hsy2, hsy3⟩ :=
    hR.randrange_mem (R.randrange (R.init seed) 1 (mazeW width) 2).2 1
      (mazeW height) (by omega)
  set sx := (R.randrange (R.init seed) 1 (mazeW width) 2).1 with hsxdef
  set sy := (R.randrange (R.randrange (R.init seed) 1 (mazeW width) 2).2 1
    (mazeW height) 2).1 with hsydef
  set g1 : MazeGrid := carve (fun _ => 1) sx sy with hg1def
  set g2 : MazeGrid := mazeLoop R (mazeW width) (mazeW height) g1 [(sx, sy)] dirs0
    (R.randrange (R.randrange (R.init seed) 1 (mazeW width) 2).2 1
      (mazeW height) 2).2 with hg2def
  have inv0 : MazeInv (mazeW width) (mazeW height) (sx, sy) g1 [(sx, sy)] :=
    inv_init _ _ hw5 hw2 hh5 hh2 sx sy ⟨hsx1, hsx2, by omega⟩ ⟨hsy1, hsy2, by omega⟩
  have invF : MazeInv (mazeW width) (mazeW height) (sx, sy) g2 [] := by
    rw [hg2def]
    exact mazeLoop_inv R hR _ _ hw2 hh2 (sx, sy)
      (2 * wallCount (mazeW width) (mazeW height) g1 + 1) g1 [(sx, sy)] dirs0 _
      (by simp) (List.Perm.refl _) inv0
  have hso : OddCell (mazeW width) (mazeW height) (sx, sy) :=
    ⟨⟨by omega, by omega, by omega, by omega⟩, by omega, by omega⟩
  have hall : ∀ q, OddCell (mazeW width) (mazeW height) q → g2 q = 0 :=
    odd_all_floor _ _ g2 sx sy hso invF.start_floor
      (fun p ho hf dd hdd hodd => invF.sat p ho hf (List.not_mem_nil p) dd hdd hodd)
  have hg3 : carve g2 1 1 = g2 := by
    funext p
    unfold carve
    split
    · rename_i he
      rw [he]
      exact (hall (1, 1) ⟨⟨by omega, by omega, by omega, by omega⟩, by decide, by decide⟩).symm
    · rfl
  have hg4 : borderWall (mazeW width) (mazeW height) g2 = g2 := by
    funext p
    unfold borderWall
    split
    · rename_i hb
      rcases invF.vals p with h0 | h1
      · exfalso
        obtain ⟨⟨i1, i2, i3, i4⟩, -⟩ := invF.shape p h0
        omega
      · exact h1.symm
    · rfl
  have hfinal : generateMaze R width height seed = g2 := by
    show borderWall (mazeW width) (mazeW height) (carve g2 1 1) = g2
    rw [hg3, hg4]
  exact ⟨(sx, sy), hfinal ▸ invF, hso, fun q hq => hfinal ▸ hall q hq⟩

theorem trivR_lawful : LawfulPyRandom TrivR where
  randrange_mem := fun st lo hi hlt => ⟨le_refl lo, hlt, rfl⟩
  shuffle_perm := fun st l => List.Perm.refl l

/-- C1: for every width, height and seed (and any lawful generator
modelling `random.Random(seed)`), in the grid returned by
`generate_maze(width, height, seed)` every floor cell is reachable from
every other floor cell through edge-adjacent floor cells, and the maze is
perfect: between any two cells there is at most one simple path (the graph
of floor cells is acyclic), hence exactly one between floor cells. -/
theorem maze_perfect {σ : Type} (R : PyRandom σ) (hR : LawfulPyRandom R)
    (width height : Int) (seed : Option Int) :
    (∀ a b : Int × Int, mazeFloor R width height seed a →
      mazeFloor R width height seed b →
      (mazeGraph (generateMaze R width height seed)).Reachable a b) ∧
    ∀ (u v : Int × Int)
      (p q : (mazeGraph (generateMaze R width height seed)).Path u v), p = q := by
  obtain ⟨s, inv, -, -⟩ := generateMaze_inv R hR width height seed
  constructor
  · intro a b ha hb
    exact (inv.conn a ha.2).symm.trans (inv.conn b hb.2)
  · intro u v p q
    exact inv.acyc.path_unique p q

theorem maze_perfect_witness :
    (∀ a b : Int × Int, mazeFloor TrivR 9 9 none a →
      mazeFloor TrivR 9 9 none b →
      (mazeGraph (generateMaze TrivR 9 9 none)).Reachable a b) ∧
    ∀ (u v : Int × Int)
      (p q : (mazeGraph (generateMaze TrivR 9 9 none)).Path u v), p = q :=
  maze_perfect TrivR trivR_lawful 9 9 none
